import Mathlib

/-!
# RP2040 bootloader update driver of `app_main` (src/main/main.c)

Shallow embedding of the branch of `app_main` that runs when the RP2040
co-processor reports firmware version `0xFF` (bootloader mode), lines 340-542
of `src/main/main.c`.

* `uint32_t` values are natural numbers; every C operation that can wrap is
  written with `u32_add` / `u32_sub`.
* The co-processor is a deterministic device with an arbitrary state type `σ`
  (`Transport σ`): every driver call maps the device state and the request to
  a reply and a new device state.
* Every driver call the host makes is appended, with its arguments and its
  reply, to a trace of `Call`s.
* Loops that the C code runs without bound take a fuel argument; a run that
  exhausts the fuel is `none`.
* Screen output (`pax_*`, `ili9341_write`, `snprintf`), `vTaskDelay`,
  `rp2040_bl_install_uart` and the `malloc` / `free` of the transmit buffer
  have no effect on the protocol and are left out.
-/

namespace Mch2022

/-! ## 32-bit unsigned arithmetic -/

/-- Addition of two `uint32_t` values. -/
def u32_add (a b : Nat) : Nat := (a + b) % 4294967296

/-- Subtraction of two `uint32_t` values (wraps below zero). -/
def u32_sub (a b : Nat) : Nat := (a + (4294967296 - b % 4294967296)) % 4294967296

/-! ## CRC-32 -/

/-- One bit of the reflected CRC-32 division, polynomial `0xEDB88320`. -/
def crc32_bit (c : Nat) : Nat :=
  if c % 2 = 1 then (c >>> 1) ^^^ 0xEDB88320 else c >>> 1

/-- Modelled from the spec: the 256-entry table of the reflected polynomial
`0xEDB88320` used by the ROM routine `crc32_le` (esp32/rom/crc.h, not under
src/); entry `i` is eight division steps applied to `i`. -/
def crc32_le_table (i : Nat) : Nat :=
  crc32_bit (crc32_bit (crc32_bit (crc32_bit (crc32_bit (crc32_bit (crc32_bit (crc32_bit i)))))))

/-- One byte of `crc32_le`: `crc = table[(crc ^ b) & 0xff] ^ (crc >> 8)`. -/
def crc32_byte (crc b : Nat) : Nat :=
  crc32_le_table ((crc ^^^ b) &&& 0xff) ^^^ (crc >>> 8)

/-- Modelled from the spec: `crc32_le(crc, buf, len)` of the ESP32 ROM
(esp32/rom/crc.h, not under src/), the standard reflected CRC-32 (polynomial
`0xEDB88320`) computed incrementally: the running value is complemented on
entry and on exit, and the first `len` bytes of `buf` are folded in. -/
def crc32_le (crc : Nat) (buf : List Nat) (len : Nat) : Nat :=
  ((buf.take len).foldl crc32_byte (crc ^^^ 0xFFFFFFFF)) ^^^ 0xFFFFFFFF

/-! ## Buffers -/

/-- The transmit buffer after `memset(txBuffer, 0, write_size)`. -/
def memset_zero (write_size : Nat) : List Nat := List.replicate write_size 0

/-- The destination after `memcpy(dst, src, n)`: the first `n` bytes come from
`src`, the rest of `dst` is kept. -/
def memcpy (dst src : List Nat) (n : Nat) : List Nat := src.take n ++ dst.drop n

/-! ## Erase length (main.c lines 451-456) -/

/-- The `erase_length` handed to `rp2040_bl_erase`:
`erase_length = L + erase_size - (L % erase_size)`, then clamped to
`flash_size - erase_size`; all in `uint32_t`.  `none` is the division by zero
of `L % erase_size` when the bootloader reports `erase_size = 0`. -/
def erase_length (L flash_size erase_size : Nat) : Option Nat :=
  if erase_size = 0 then none
  else
    let rounded := u32_sub (u32_add L erase_size) (L % erase_size)
    if rounded > u32_sub flash_size erase_size then some (u32_sub flash_size erase_size)
    else some rounded

/-- The rounding the specification names: the smallest multiple of `E` that is
greater than or equal to `L`. -/
def round_up_spec (L E : Nat) : Nat := ((L + E - 1) / E) * E

/-! ## Device and trace -/

/-- The five fields filled in by `rp2040_bl_get_info`. -/
structure FlashInfo where
  flash_start : Nat
  flash_size : Nat
  erase_size : Nat
  write_size : Nat
  max_data_len : Nat
  deriving DecidableEq, Repr

/-- A driver call made by the host, with its arguments and the reply. -/
inductive Call where
  | get_bootloader_version (ok : Bool)
  | get_bootloader_state (ok : Bool) (bl_state : Nat)
  | sync (ack : Bool)
  | get_info (ok : Bool) (info : FlashInfo)
  | erase (start length : Nat) (ok : Bool)
  | write (address length : Nat) (data : List Nat) (ok : Bool) (crc : Nat)
  | seal (load_address entry_address total_length total_crc : Nat) (ok : Bool)
  | go (entry_address : Nat)
  | restart
  deriving DecidableEq, Repr

/-- The co-processor as seen through the driver functions of rp2040.h and
rp2040bl.h: each call takes the device state and the request and gives the
reply and the next device state. -/
structure Transport (σ : Type) where
  get_bootloader_version : σ → Bool × σ
  get_bootloader_state : σ → (Bool × Nat) × σ
  bl_sync : σ → Bool × σ
  bl_get_info : σ → (Bool × FlashInfo) × σ
  bl_erase : σ → Nat → Nat → Bool × σ
  bl_write : σ → Nat → Nat → List Nat → (Bool × Nat) × σ
  bl_seal : σ → Nat → Nat → Nat → Nat → Bool × σ
  bl_go : σ → Nat → σ

/-- How a run of the update branch ends. -/
inductive Outcome where
  /-- The run ended in a call of `restart()`. -/
  | restarted
  /-- The final `while (true) vTaskDelay(...)` holding loop was entered. -/
  | holding
  /-- The remainder `L % erase_size` was evaluated with `erase_size = 0`. -/
  | fault
  deriving DecidableEq, Repr

/-- A finished run: the calls made, in order, how it ended, and the device. -/
structure Run (σ : Type) where
  calls : List Call
  outcome : Outcome
  dev : σ
  deriving DecidableEq

/-- The variables of the write loop (main.c lines 472-478) together with the
device state and the trace so far. -/
structure WriteState (σ : Type) where
  position : Nat
  txSize : Nat
  blockCrc : Nat
  totalCrc : Nat
  totalLength : Nat
  dev : σ
  calls : List Call
  deriving DecidableEq

variable {σ : Type}

/-- Modelled from the spec: `restart()` (system_wrapper.h, not under src/),
"a no-return call that resets the host to its initial boot state": the call is
the last of the run. -/
def restart (dev : σ) (calls : List Call) : Run σ :=
  { calls := calls ++ [Call.restart], outcome := Outcome.restarted, dev := dev }

/-! ## Loops -/

/-- Both sync loops of `app_main`, `while (true) { if (rp2040_bl_sync()) break; ... }`
(line 407) and `while (!rp2040_bl_sync()) { ... }` (line 507): call sync until
it is acknowledged. -/
def sync_until_ack (T : Transport σ) : Nat → σ → List Call → Option (σ × List Call)
  | 0, _, _ => none
  | fuel + 1, dev, calls =>
    let r := T.bl_sync dev
    if r.1 then some (r.2, calls ++ [Call.sync true])
    else sync_until_ack T fuel r.2 (calls ++ [Call.sync false])

/-- The loop of lines 374-394: poll the bootloader state until it is `0xB0`.
The result is `Sum.inr` when the loop was left by `break` and `Sum.inl` with
the finished run when `restart()` was called. -/
def wait_bl_state (T : Transport σ) : Nat → σ → List Call → Option (Run σ ⊕ (σ × List Call))
  | 0, _, _ => none
  | fuel + 1, dev, calls =>
    let r := T.get_bootloader_state dev
    let calls := calls ++ [Call.get_bootloader_state r.1.1 r.1.2]
    if !r.1.1 then some (Sum.inl (restart r.2 calls))
    else if r.1.2 = 0xB0 then some (Sum.inr (r.2, calls))
    else if r.1.2 > 0xB0 then some (Sum.inl (restart r.2 calls))
    else wait_bl_state T fuel r.2 calls

/-- One pass through the body of the write loop (lines 481-510), for the image
`mch2022_firmware_bin` (`image`, of `sizeof` `image.length`) and the
`write_size` reported by the bootloader.  The boolean of the result is `true`
when the pass left the loop by `break` (line 485) and `false` when it reached
the end of the body; `none` when the inner sync loop ran out of fuel. -/
def write_iter (T : Transport σ) (image : List Nat) (write_size : Nat) (fuel : Nat)
    (st : WriteState σ) : Option (Bool × WriteState σ) :=
  let txSize :=
    if u32_sub image.length st.position < st.txSize then u32_sub image.length st.position
    else st.txSize
  if txSize = 0 then some (true, { st with txSize := txSize })
  else
    let txBuffer := memcpy (memset_zero write_size) (image.drop st.position) txSize
    let blockCrc := crc32_le 0 txBuffer write_size
    let totalCrc := crc32_le st.totalCrc txBuffer write_size
    let totalLength := u32_add st.totalLength write_size
    let address := u32_add 0x10010000 st.position
    let r := T.bl_write st.dev address write_size txBuffer
    let calls := st.calls ++ [Call.write address write_size txBuffer r.1.1 r.1.2]
    if r.1.1 && (blockCrc == r.1.2) then
      some (false,
        { position := u32_add st.position txSize, txSize := txSize, blockCrc := blockCrc,
          totalCrc := totalCrc, totalLength := totalLength, dev := r.2, calls := calls })
    else
      match sync_until_ack T fuel r.2 calls with
      | none => none
      | some (dev, calls) =>
        some (false,
          { position := st.position, txSize := txSize, blockCrc := blockCrc,
            totalCrc := totalCrc, totalLength := totalLength, dev := dev, calls := calls })

/-- The write loop of lines 480-511: `while (true)` around `write_iter`. -/
def write_loop (T : Transport σ) (image : List Nat) (write_size : Nat) :
    Nat → WriteState σ → Option (WriteState σ)
  | 0, _ => none
  | fuel + 1, st =>
    match write_iter T image write_size fuel st with
    | none => none
    | some (true, st1) => some st1
    | some (false, st1) => write_loop T image write_size fuel st1

/-- The state in which the write loop is entered (lines 472-478). -/
def write_init (write_size : Nat) (dev : σ) (calls : List Call) : WriteState σ :=
  { position := 0, txSize := write_size, blockCrc := 0, totalCrc := 0, totalLength := 0,
    dev := dev, calls := calls }

/-! ## The update branch of `app_main` -/

/-- Lines 522-541: seal, then `go` when the seal succeeded, then the holding
loop. -/
def seal_and_go (T : Transport σ) (st : WriteState σ) : Run σ :=
  let s := T.bl_seal st.dev 0x10010000 0x10010000 st.totalLength st.totalCrc
  let calls := st.calls ++ [Call.seal 0x10010000 0x10010000 st.totalLength st.totalCrc s.1]
  if s.1 then
    { calls := calls ++ [Call.go 0x10010000], outcome := Outcome.holding,
      dev := T.bl_go s.2 0x10010000 }
  else { calls := calls, outcome := Outcome.holding, dev := s.2 }

/-- Lines 412-541: get_info, erase, write loop, seal and go. -/
def flash_image (T : Transport σ) (image : List Nat) (fuel : Nat) (dev : σ)
    (calls : List Call) : Option (Run σ) :=
  let r := T.bl_get_info dev
  let calls := calls ++ [Call.get_info r.1.1 r.1.2]
  if !r.1.1 then some (restart r.2 calls)
  else
    let info := r.1.2
    match erase_length image.length info.flash_size info.erase_size with
    | none => some { calls := calls, outcome := Outcome.fault, dev := r.2 }
    | some len =>
      let e := T.bl_erase r.2 info.flash_start len
      let calls := calls ++ [Call.erase info.flash_start len e.1]
      if !e.1 then some (restart e.2 calls)
      else
        match write_loop T image info.write_size fuel (write_init info.write_size e.2 calls) with
        | none => none
        | some st => some (seal_and_go T st)

/-- The branch `if (fw_version == 0xFF)` of `app_main` (lines 340-542), from
the device state `dev`, for the firmware image `image`. -/
def app_main_update (T : Transport σ) (image : List Nat) (fuel : Nat) (dev : σ) :
    Option (Run σ) :=
  let v := T.get_bootloader_version dev
  let calls := [Call.get_bootloader_version v.1]
  if !v.1 then some (restart v.2 calls)
  else
    match wait_bl_state T fuel v.2 calls with
    | none => none
    | some (Sum.inl run) => some run
    | some (Sum.inr (dev, calls)) =>
      match sync_until_ack T fuel dev calls with
      | none => none
      | some (dev, calls) => flash_image T image fuel dev calls

/-! ## Reading traces -/

/-- The protocol command of a call, without arguments and reply. -/
inductive Cmd where
  | get_bootloader_version | get_bootloader_state | sync | get_info | erase | write | seal | go
  | restart
  deriving DecidableEq, Repr

/-- The command a call belongs to. -/
def Call.cmd : Call → Cmd
  | Call.get_bootloader_version _ => Cmd.get_bootloader_version
  | Call.get_bootloader_state _ _ => Cmd.get_bootloader_state
  | Call.sync _ => Cmd.sync
  | Call.get_info _ _ => Cmd.get_info
  | Call.erase _ _ _ => Cmd.erase
  | Call.write _ _ _ _ _ => Cmd.write
  | Call.seal _ _ _ _ _ => Cmd.seal
  | Call.go _ => Cmd.go
  | Call.restart => Cmd.restart

/-- Address, length argument and buffer of a write call. -/
def Call.write_args : Call → Option (Nat × Nat × List Nat)
  | Call.write a len d _ _ => some (a, len, d)
  | _ => none

/-- The write calls of a trace, in order: address, length argument, buffer. -/
def write_calls (calls : List Call) : List (Nat × Nat × List Nat) :=
  calls.filterMap Call.write_args

/-- The value of `txSize` after the `if` of lines 481-483. -/
def clamped_txSize (image : List Nat) (st : WriteState σ) : Nat :=
  if u32_sub image.length st.position < st.txSize then u32_sub image.length st.position
  else st.txSize

/-- The transmit buffer built at lines 498-499 for the state `st`. -/
def tx_buffer (image : List Nat) (write_size : Nat) (st : WriteState σ) : List Nat :=
  memcpy (memset_zero write_size) (image.drop st.position) (clamped_txSize image st)

/-- A device whose every write reply reports success and the CRC-32 of the
block it was sent. -/
def Verifying (T : Transport σ) : Prop :=
  ∀ s a len buf, (T.bl_write s a len buf).1 = (true, crc32_le 0 buf len)

/-- Block `k` of the image, zero-padded to `write_size` bytes. -/
def padded_block (image : List Nat) (write_size k : Nat) : List Nat :=
  (image.drop (k * write_size)).take write_size ++
    List.replicate (write_size - ((image.drop (k * write_size)).take write_size).length) 0

/-- The write call for block `k` as a verifying device answers it. -/
def verified_write (image : List Nat) (write_size k : Nat) : Call :=
  Call.write (u32_add 0x10010000 (k * write_size)) write_size (padded_block image write_size k)
    true (crc32_le 0 (padded_block image write_size k) write_size)

/-- The traces a run of `flash_image` can leave after the calls `pre`. -/
def FlashShape (image : List Nat) (pre : List Call) (run : Run σ) : Prop :=
  (∃ info, run.calls = pre ++ [Call.get_info false info, Call.restart] ∧
      run.outcome = Outcome.restarted) ∨
  (∃ info, info.erase_size = 0 ∧ run.calls = pre ++ [Call.get_info true info] ∧
      run.outcome = Outcome.fault) ∨
  (∃ info len, erase_length image.length info.flash_size info.erase_size = some len ∧
      run.calls = pre ++ [Call.get_info true info, Call.erase info.flash_start len false,
        Call.restart] ∧
      run.outcome = Outcome.restarted) ∨
  (∃ info len ext tl tc ok,
      erase_length image.length info.flash_size info.erase_size = some len ∧
      run.calls = pre ++ [Call.get_info true info, Call.erase info.flash_start len true] ++ ext ++
        (Call.seal 0x10010000 0x10010000 tl tc ok :: (if ok then [Call.go 0x10010000] else [])) ∧
      run.outcome = Outcome.holding ∧
      (∀ c ∈ ext, c.cmd = Cmd.sync ∨ c.cmd = Cmd.write) ∧
      (∀ w ∈ write_calls ext, w.2.1 = info.write_size) ∧
      tl = (info.write_size * (write_calls ext).length) % 4294967296 ∧
      (image.length < 4294967296 → ∀ w ∈ write_calls ext, w.2.2.length = info.write_size))

/-- Calls made before `get_info`: bootloader version and state polls and the
first sync loop. -/
def Prelude (pre : List Call) : Prop :=
  ∀ c ∈ pre, c.cmd = Cmd.get_bootloader_version ∨ c.cmd = Cmd.get_bootloader_state ∨
    c.cmd = Cmd.sync

/-! ## Concrete devices -/

/-- The replies of a scripted device: the result of get_info, erase and seal,
and the index of the one write call (if any) answered with a wrong CRC. -/
structure Script where
  info_ok : Bool
  info : FlashInfo
  erase_ok : Bool
  bad_write : Option Nat
  seal_ok : Bool

/-- A device that is in bootloader state `0xB0`, acknowledges every sync and
answers the other calls as the script says; its state counts the write calls
received. -/
def scripted (sc : Script) : Transport Nat :=
  { get_bootloader_version := fun s => (true, s)
    get_bootloader_state := fun s => ((true, 0xB0), s)
    bl_sync := fun s => (true, s)
    bl_get_info := fun s => ((sc.info_ok, sc.info), s)
    bl_erase := fun s _ _ => (sc.erase_ok, s)
    bl_write := fun s _ len buf =>
      ((true, if sc.bad_write = some s then crc32_le 0 buf len ^^^ 1 else crc32_le 0 buf len),
        s + 1)
    bl_seal := fun s _ _ _ _ => (sc.seal_ok, s)
    bl_go := fun s _ => s }

/-- A geometry with 4-byte write blocks and 4096-byte erase blocks. -/
def small_info : FlashInfo :=
  { flash_start := 0x10010000, flash_size := 0x1F0000, erase_size := 4096, write_size := 4,
    max_data_len := 1024 }

/-- The script in which every call succeeds. -/
def all_ok : Script :=
  { info_ok := true, info := small_info, erase_ok := true, bad_write := none, seal_ok := true }

/-- The script in which write call number `k` (counted from 0) is answered
with success and a wrong CRC, and every other call succeeds. -/
def one_bad_write (k : Nat) : Script :=
  { info_ok := true, info := small_info, erase_ok := true, bad_write := some k, seal_ok := true }


/-- The script in which the seal call fails. -/
def seal_fails : Script :=
  { info_ok := true, info := small_info, erase_ok := true, bad_write := none, seal_ok := false }

/-- The script in which the get_info call fails. -/
def info_fails : Script :=
  { info_ok := false, info := small_info, erase_ok := true, bad_write := none, seal_ok := true }

/-- The script in which the erase call fails. -/
def erase_fails : Script :=
  { info_ok := true, info := small_info, erase_ok := false, bad_write := none, seal_ok := true }

/-- The script of a bootloader that reports `flash_start = 0x10000000`. -/
def low_flash_start : Script :=
  { info_ok := true,
    info := { flash_start := 0x10000000, flash_size := 0x1F0000, erase_size := 4096,
              write_size := 4, max_data_len := 1024 },
    erase_ok := true, bad_write := none, seal_ok := true }

/-- The calls every run against a scripted device starts with. -/
def scripted_prelude : List Call :=
  [Call.get_bootloader_version true, Call.get_bootloader_state true 0xB0, Call.sync true]

/-- The run of the image `[1, 2, 3, 4, 5]` against `scripted all_ok`. -/
def verified_run : Run Nat :=
  { calls := scripted_prelude ++
      [Call.get_info true small_info, Call.erase 0x10010000 4096 true,
        Call.write 0x10010000 4 [1, 2, 3, 4] true 3057449933,
        Call.write 0x10010004 4 [5, 0, 0, 0] true 379203374,
        Call.seal 0x10010000 0x10010000 8 2061363842 true, Call.go 0x10010000],
    outcome := Outcome.holding, dev := 2 }

/-- The run of the image `[1, 2, 3, 4, 5]` against `scripted (one_bad_write 0)`. -/
def retried_run : Run Nat :=
  { calls := scripted_prelude ++
      [Call.get_info true small_info, Call.erase 0x10010000 4096 true,
        Call.write 0x10010000 4 [1, 2, 3, 4] true 3057449932, Call.sync true,
        Call.write 0x10010000 4 [1, 2, 3, 4] true 3057449933,
        Call.write 0x10010004 4 [5, 0, 0, 0] true 379203374,
        Call.seal 0x10010000 0x10010000 12 288943141 true, Call.go 0x10010000],
    outcome := Outcome.holding, dev := 3 }

/-- The run of the image `[1, 2, 3, 4, 5]` against `scripted seal_fails`. -/
def seal_failed_run : Run Nat :=
  { calls := scripted_prelude ++
      [Call.get_info true small_info, Call.erase 0x10010000 4096 true,
        Call.write 0x10010000 4 [1, 2, 3, 4] true 3057449933,
        Call.write 0x10010004 4 [5, 0, 0, 0] true 379203374,
        Call.seal 0x10010000 0x10010000 8 2061363842 false],
    outcome := Outcome.holding, dev := 2 }

/-- The run of the image `[1, 2, 3, 4, 5]` against `scripted info_fails`. -/
def info_failed_run : Run Nat :=
  { calls := scripted_prelude ++ [Call.get_info false small_info, Call.restart],
    outcome := Outcome.restarted, dev := 0 }

/-- The run of the image `[1, 2, 3, 4, 5]` against `scripted erase_fails`. -/
def erase_failed_run : Run Nat :=
  { calls := scripted_prelude ++
      [Call.get_info true small_info, Call.erase 0x10010000 4096 false, Call.restart],
    outcome := Outcome.restarted, dev := 0 }

/-- The state after the first pass of the write loop for the image
`[1, 2, 3, 4, 5]` against `scripted all_ok`. -/
def first_pass_state : WriteState Nat :=
  { position := 4, txSize := 4, blockCrc := 3057449933, totalCrc := 3057449933,
    totalLength := 4, dev := 1,
    calls := [Call.write 0x10010000 4 [1, 2, 3, 4] true 3057449933] }

/-! ## Iterations of the write loop -/

/-- The states in which the write loop of lines 480-511 can stand at the top of
its body: the state in which the loop is entered, and every state left by a
pass that reached the end of the body, whatever the device answered. -/
inductive LoopHead (T : Transport σ) (image : List Nat) (write_size : Nat) :
    WriteState σ → Prop where
  | entry (dev : σ) (calls : List Call) :
      LoopHead T image write_size (write_init write_size dev calls)
  | pass {st st1 : WriteState σ} {fuel : Nat} :
      LoopHead T image write_size st →
      write_iter T image write_size fuel st = some (false, st1) →
      LoopHead T image write_size st1

/-- The chunk length the specification names:
`chunk_length = min(write_size, image_length - position)`. -/
def chunk_length_spec (write_size image_length position : Nat) : Nat :=
  min write_size (image_length - position)

/-- Whether the reply to the write call of the pass that starts in `st` is a
verified one, `writeSuccess && (blockCrc == checkCrc)` of line 504. -/
def write_verified (T : Transport σ) (image : List Nat) (write_size : Nat)
    (st : WriteState σ) : Prop :=
  (T.bl_write st.dev (u32_add 0x10010000 st.position) write_size
      (tx_buffer image write_size st)).1.1 = true ∧
  (T.bl_write st.dev (u32_add 0x10010000 st.position) write_size
      (tx_buffer image write_size st)).1.2 = crc32_le 0 (tx_buffer image write_size st) write_size

/-- The script of a bootloader that reports `flash_start = 0x10020000`. -/
def high_flash_start : Script :=
  { info_ok := true,
    info := { flash_start := 0x10020000, flash_size := 0x1E0000, erase_size := 4096,
              write_size := 4, max_data_len := 1024 },
    erase_ok := true, bad_write := none, seal_ok := true }

/-- The script of a bootloader that reports a flash of 8 bytes with 4-byte
erase and write blocks. -/
def tiny_flash : Script :=
  { info_ok := true,
    info := { flash_start := 0x10010000, flash_size := 8, erase_size := 4, write_size := 4,
              max_data_len := 1024 },
    erase_ok := true, bad_write := none, seal_ok := true }

/-- The state after the first pass of the write loop for the image
`[1, 2, 3, 4, 5]` against `scripted (one_bad_write 0)`: the write was answered
with a wrong CRC and the sync that followed was acknowledged. -/
def failed_pass_state : WriteState Nat :=
  { position := 0, txSize := 4, blockCrc := 3057449933, totalCrc := 3057449933,
    totalLength := 4, dev := 1,
    calls := [Call.write 0x10010000 4 [1, 2, 3, 4] true 3057449932, Call.sync true] }

/-- The run of the image `[1, 2, 3, 4, 5]` against `scripted low_flash_start`. -/
def low_start_run : Run Nat :=
  { calls := scripted_prelude ++
      [Call.get_info true low_flash_start.info, Call.erase 0x10000000 4096 true,
        Call.write 0x10010000 4 [1, 2, 3, 4] true 3057449933,
        Call.write 0x10010004 4 [5, 0, 0, 0] true 379203374,
        Call.seal 0x10010000 0x10010000 8 2061363842 true, Call.go 0x10010000],
    outcome := Outcome.holding, dev := 2 }

/-! ## CRC-32 check value -/

set_option maxRecDepth 100000 in
/-- The model of `crc32_le` gives the standard CRC-32 check value `0xCBF43926`
for the ASCII string "123456789". -/
theorem crc32_le_check_value :
    crc32_le 0 [0x31, 0x32, 0x33, 0x34, 0x35, 0x36, 0x37, 0x38, 0x39] 9 = 0xCBF43926 := by
  decide

/-! ## 32-bit arithmetic facts -/

theorem u32_sub_of_le {a b : Nat} (hb : b ≤ a) (ha : a < 4294967296) : u32_sub a b = a - b := by
  unfold u32_sub
  omega

theorem u32_add_of_lt {a b : Nat} (h : a + b < 4294967296) : u32_add a b = a + b := by
  unfold u32_add
  omega

theorem rounded_eq {L E : Nat} (hE : 0 < E) (hno : L + E - L % E < 4294967296) :
    u32_sub (u32_add L E) (L % E) = L + E - L % E := by
  have hr : L % E ≤ L := Nat.mod_le L E
  have hr2 : L % E < E := Nat.mod_lt L hE
  unfold u32_sub u32_add
  omega

/-! ## Traces of the loops -/

theorem sync_until_ack_trace (T : Transport σ) :
    ∀ (fuel : Nat) (dev : σ) (calls : List Call) (dev1 : σ) (calls1 : List Call),
      sync_until_ack T fuel dev calls = some (dev1, calls1) →
      ∃ n, calls1 = calls ++ (List.replicate n (Call.sync false) ++ [Call.sync true]) := by
  intro fuel
  induction fuel with
  | zero => intro dev calls dev1 calls1 h; simp [sync_until_ack] at h
  | succ fuel ih =>
    intro dev calls dev1 calls1 h
    unfold sync_until_ack at h
    by_cases hr : (T.bl_sync dev).1 = true
    · simp only [hr, if_true, Option.some.injEq, Prod.mk.injEq] at h
      exact ⟨0, by simp [← h.2]⟩
    · simp only [hr, if_false] at h
      obtain ⟨n, hn⟩ := ih _ _ _ _ h
      refine ⟨n + 1, ?_⟩
      rw [hn, List.replicate_succ]
      simp

theorem wait_bl_state_trace (T : Transport σ) :
    ∀ (fuel : Nat) (dev : σ) (calls : List Call) (res : Run σ ⊕ (σ × List Call)),
      wait_bl_state T fuel dev calls = some res →
      ∃ ext, (∀ c ∈ ext, c.cmd = Cmd.get_bootloader_state) ∧
        match res with
        | Sum.inl run => run.calls = calls ++ ext ++ [Call.restart] ∧
            run.outcome = Outcome.restarted
        | Sum.inr r => r.2 = calls ++ ext := by
  intro fuel
  induction fuel with
  | zero => intro dev calls res h; simp [wait_bl_state] at h
  | succ fuel ih =>
    intro dev calls res h
    unfold wait_bl_state at h
    simp only at h
    split_ifs at h with h1 h2 h3
    · simp only [Option.some.injEq] at h
      subst h
      exact ⟨[Call.get_bootloader_state (T.get_bootloader_state dev).1.1
        (T.get_bootloader_state dev).1.2], by simp [Call.cmd], by simp [restart]⟩
    · simp only [Option.some.injEq] at h
      subst h
      exact ⟨[Call.get_bootloader_state (T.get_bootloader_state dev).1.1
        (T.get_bootloader_state dev).1.2], by simp [Call.cmd], by simp⟩
    · simp only [Option.some.injEq] at h
      subst h
      exact ⟨[Call.get_bootloader_state (T.get_bootloader_state dev).1.1
        (T.get_bootloader_state dev).1.2], by simp [Call.cmd], by simp [restart]⟩
    · obtain ⟨ext, hall, he⟩ := ih _ _ _ h
      refine ⟨Call.get_bootloader_state (T.get_bootloader_state dev).1.1
        (T.get_bootloader_state dev).1.2 :: ext, ?_, ?_⟩
      · intro c hc
        rcases List.mem_cons.mp hc with rfl | hc
        · rfl
        · exact hall c hc
      · cases res with
        | inl run => simpa using he
        | inr r => simpa using he

theorem write_iter_eq (T : Transport σ) (image : List Nat) (W fuel : Nat) (st : WriteState σ) :
    write_iter T image W fuel st =
      if clamped_txSize image st = 0 then some (true, { st with txSize := clamped_txSize image st })
      else
        if ((T.bl_write st.dev (u32_add 0x10010000 st.position) W (tx_buffer image W st)).1.1 &&
            (crc32_le 0 (tx_buffer image W st) W ==
              (T.bl_write st.dev (u32_add 0x10010000 st.position) W
                (tx_buffer image W st)).1.2)) = true then
          some (false,
            { position := u32_add st.position (clamped_txSize image st),
              txSize := clamped_txSize image st,
              blockCrc := crc32_le 0 (tx_buffer image W st) W,
              totalCrc := crc32_le st.totalCrc (tx_buffer image W st) W,
              totalLength := u32_add st.totalLength W,
              dev := (T.bl_write st.dev (u32_add 0x10010000 st.position) W
                (tx_buffer image W st)).2,
              calls := st.calls ++ [Call.write (u32_add 0x10010000 st.position) W
                (tx_buffer image W st)
                (T.bl_write st.dev (u32_add 0x10010000 st.position) W (tx_buffer image W st)).1.1
                (T.bl_write st.dev (u32_add 0x10010000 st.position) W
                  (tx_buffer image W st)).1.2] })
        else
          match sync_until_ack T fuel
              (T.bl_write st.dev (u32_add 0x10010000 st.position) W (tx_buffer image W st)).2
              (st.calls ++ [Call.write (u32_add 0x10010000 st.position) W (tx_buffer image W st)
                (T.bl_write st.dev (u32_add 0x10010000 st.position) W (tx_buffer image W st)).1.1
                (T.bl_write st.dev (u32_add 0x10010000 st.position) W
                  (tx_buffer image W st)).1.2]) with
          | none => none
          | some (dev, calls) =>
            some (false,
              { position := st.position, txSize := clamped_txSize image st,
                blockCrc := crc32_le 0 (tx_buffer image W st) W,
                totalCrc := crc32_le st.totalCrc (tx_buffer image W st) W,
                totalLength := u32_add st.totalLength W, dev := dev, calls := calls }) := rfl

theorem write_iter_break {T : Transport σ} {image : List Nat} {W fuel : Nat}
    {st st1 : WriteState σ} (h : write_iter T image W fuel st = some (true, st1)) :
    clamped_txSize image st = 0 ∧ st1 = { st with txSize := 0 } := by
  rw [write_iter_eq] at h
  by_cases h0 : clamped_txSize image st = 0
  · rw [if_pos h0] at h
    simp only [Option.some.injEq, Prod.mk.injEq, true_and] at h
    refine ⟨h0, ?_⟩
    rw [← h, h0]
  · rw [if_neg h0] at h
    split_ifs at h with hv
    · simp at h
    · split at h <;> simp at h

theorem write_iter_next {T : Transport σ} {image : List Nat} {W fuel : Nat}
    {st st1 : WriteState σ} (h : write_iter T image W fuel st = some (false, st1)) :
    clamped_txSize image st ≠ 0 ∧ st1.txSize = clamped_txSize image st ∧
    st1.totalLength = u32_add st.totalLength W ∧
    st1.totalCrc = crc32_le st.totalCrc (tx_buffer image W st) W ∧
    st1.blockCrc = crc32_le 0 (tx_buffer image W st) W ∧
    ∃ ok crc,
      (T.bl_write st.dev (u32_add 0x10010000 st.position) W (tx_buffer image W st)).1 = (ok, crc) ∧
      ((ok = true ∧ crc = crc32_le 0 (tx_buffer image W st) W ∧
          st1.position = u32_add st.position (clamped_txSize image st) ∧
          st1.calls = st.calls ++
            [Call.write (u32_add 0x10010000 st.position) W (tx_buffer image W st) ok crc]) ∨
       (¬ (ok = true ∧ crc = crc32_le 0 (tx_buffer image W st) W) ∧
          st1.position = st.position ∧
          ∃ n, st1.calls = st.calls ++
            (Call.write (u32_add 0x10010000 st.position) W (tx_buffer image W st) ok crc ::
              (List.replicate n (Call.sync false) ++ [Call.sync true])))) := by
  rw [write_iter_eq] at h
  by_cases h0 : clamped_txSize image st = 0
  · rw [if_pos h0] at h
    simp at h
  · rw [if_neg h0] at h
    split_ifs at h with hv
    · simp only [Option.some.injEq, Prod.mk.injEq, true_and] at h
      subst h
      refine ⟨h0, rfl, rfl, rfl, rfl, _, _, rfl, Or.inl ?_⟩
      simp only [Bool.and_eq_true, beq_iff_eq] at hv
      exact ⟨hv.1, hv.2.symm, rfl, rfl⟩
    · split at h
      · simp at h
      · rename_i dev calls hs
        simp only [Option.some.injEq, Prod.mk.injEq, true_and] at h
        subst h
        obtain ⟨n, hn⟩ := sync_until_ack_trace T _ _ _ _ _ hs
        refine ⟨h0, rfl, rfl, rfl, rfl, _, _, rfl, Or.inr ⟨?_, rfl, n, ?_⟩⟩
        · simp only [Bool.and_eq_true, beq_iff_eq] at hv
          intro hh
          exact hv ⟨hh.1, hh.2.symm⟩
        · simp only [hn, List.append_assoc, List.singleton_append]

theorem clamped_txSize_eq {image : List Nat} {st : WriteState σ}
    (hL : image.length < 4294967296) (hp : st.position ≤ image.length) :
    clamped_txSize image st = min st.txSize (image.length - st.position) := by
  unfold clamped_txSize
  rw [u32_sub_of_le hp hL]
  split_ifs with h <;> omega

theorem tx_buffer_length {image : List Nat} {W : Nat} {st : WriteState σ}
    (hL : image.length < 4294967296) (hp : st.position ≤ image.length) (ht : st.txSize ≤ W) :
    (tx_buffer image W st).length = W := by
  unfold tx_buffer memcpy memset_zero
  rw [clamped_txSize_eq hL hp]
  simp only [List.length_append, List.length_take, List.length_drop, List.length_replicate]
  omega

/-- The loop invariant `position ≤ L` and `txSize ≤ write_size` is kept by a
pass that reaches the end of the body. -/
theorem write_iter_invariant {T : Transport σ} {image : List Nat} {W fuel : Nat}
    {st st1 : WriteState σ} (h : write_iter T image W fuel st = some (false, st1))
    (hL : image.length < 4294967296) (hp : st.position ≤ image.length) (ht : st.txSize ≤ W) :
    st1.position ≤ image.length ∧ st1.txSize ≤ W ∧ st.position ≤ st1.position := by
  obtain ⟨_, htx, _, _, _, ok, crc, _, hcase⟩ := write_iter_next h
  have hc := @clamped_txSize_eq _ image st hL hp
  rcases hcase with ⟨_, _, hpos, _⟩ | ⟨_, hpos, _⟩
  · rw [hpos, htx, hc, u32_add_of_lt (by omega)]
    omega
  · rw [hpos, htx, hc]
    omega

theorem write_calls_append (xs ys : List Call) :
    write_calls (xs ++ ys) = write_calls xs ++ write_calls ys := by
  simp [write_calls, List.filterMap_append]

theorem write_calls_syncs (n : Nat) :
    write_calls (List.replicate n (Call.sync false) ++ [Call.sync true]) = [] := by
  induction n with
  | zero => rfl
  | succ n ih =>
    rw [List.replicate_succ, List.cons_append]
    exact ih

theorem write_calls_of_cmd_ne {xs : List Call} (h : ∀ c ∈ xs, c.cmd ≠ Cmd.write) :
    write_calls xs = [] := by
  induction xs with
  | nil => rfl
  | cons x xs ih =>
    have hx := h x (List.mem_cons_self _ _)
    have hxs := ih (fun c hc => h c (List.mem_cons_of_mem _ hc))
    cases x <;> simp_all [write_calls, Call.write_args, Call.cmd]

/-- What a finished write loop has added to the trace and to `totalLength`. -/
theorem write_loop_trace (T : Transport σ) (image : List Nat) (W : Nat) :
    ∀ (fuel : Nat) (st st1 : WriteState σ), write_loop T image W fuel st = some st1 →
      ∃ ext, st1.calls = st.calls ++ ext ∧
        (∀ c ∈ ext, c.cmd = Cmd.sync ∨ c.cmd = Cmd.write) ∧
        (∀ w ∈ write_calls ext, w.2.1 = W) ∧
        (st.totalLength < 4294967296 →
          st1.totalLength = (st.totalLength + W * (write_calls ext).length) % 4294967296) ∧
        (image.length < 4294967296 → st.position ≤ image.length → st.txSize ≤ W →
          st1.position ≤ image.length ∧ ∀ w ∈ write_calls ext, w.2.2.length = W) := by
  intro fuel
  induction fuel with
  | zero => intro st st1 h; simp [write_loop] at h
  | succ fuel ih =>
    intro st st1 h
    unfold write_loop at h
    split at h
    · simp at h
    · rename_i st2 hit
      simp only [Option.some.injEq] at h
      subst h
      obtain ⟨_, rfl⟩ := write_iter_break hit
      exact ⟨[], by simp, by simp, by simp [write_calls],
        fun hlt => by simp [write_calls, Nat.mod_eq_of_lt hlt],
        fun _ hp _ => ⟨hp, by simp [write_calls]⟩⟩
    · rename_i st2 hit
      obtain ⟨ext, hcalls, hcmd, hlen, htot, hinv⟩ := ih st2 st1 h
      obtain ⟨_, _, htl, _, _, ok, crc, _, hcase⟩ := write_iter_next hit
      have hkey : ∃ tail, st2.calls = st.calls ++
          (Call.write (u32_add 0x10010000 st.position) W (tx_buffer image W st) ok crc :: tail) ∧
          (∀ c ∈ tail, c.cmd = Cmd.sync) ∧ write_calls tail = [] := by
        rcases hcase with ⟨_, _, _, hc⟩ | ⟨_, _, n, hc⟩
        · exact ⟨[], hc, by simp, rfl⟩
        · refine ⟨_, hc, ?_, write_calls_syncs n⟩
          intro c hc
          rcases List.mem_append.mp hc with h1 | h1
          · rw [List.eq_of_mem_replicate h1]; rfl
          · rw [List.mem_singleton.mp h1]; rfl
      obtain ⟨tail, htail, hsync, hnow⟩ := hkey
      have hw : write_calls
          (Call.write (u32_add 0x10010000 st.position) W (tx_buffer image W st) ok crc :: tail ++ ext)
          = (u32_add 0x10010000 st.position, W, tx_buffer image W st) :: write_calls ext := by
        have : write_calls (tail ++ ext) = write_calls ext := by
          rw [write_calls_append, hnow, List.nil_append]
        simpa [write_calls, Call.write_args] using this
      refine ⟨Call.write (u32_add 0x10010000 st.position) W (tx_buffer image W st) ok crc ::
        tail ++ ext, ?_, ?_, ?_, ?_, ?_⟩
      · rw [hcalls, htail]; simp
      · intro c hc
        simp only [List.cons_append, List.mem_cons, List.mem_append] at hc
        rcases hc with rfl | hc | hc
        · exact Or.inr rfl
        · exact Or.inl (hsync c hc)
        · exact hcmd c hc
      · intro w hwm
        rw [hw] at hwm
        rcases List.mem_cons.mp hwm with rfl | hwm
        · rfl
        · exact hlen w hwm
      · intro _
        have h2 : st2.totalLength < 4294967296 := by
          rw [htl]; unfold u32_add; omega
        rw [htot h2, htl, hw, List.length_cons, u32_add, Nat.mul_succ]
        omega
      · intro hL hp ht
        obtain ⟨hp2, ht2, _⟩ := write_iter_invariant hit hL hp ht
        obtain ⟨hp3, hbuf⟩ := hinv hL hp2 ht2
        refine ⟨hp3, ?_⟩
        intro w hwm
        rw [hw] at hwm
        rcases List.mem_cons.mp hwm with rfl | hwm
        · exact tx_buffer_length hL hp ht
        · exact hbuf w hwm

theorem erase_length_none {L F E : Nat} (h : erase_length L F E = none) : E = 0 := by
  unfold erase_length at h
  by_contra hE
  rw [if_neg hE] at h
  simp only at h
  split_ifs at h

theorem flash_image_shape {T : Transport σ} {image : List Nat} {fuel : Nat} {dev : σ}
    {pre : List Call} {run : Run σ} (h : flash_image T image fuel dev pre = some run) :
    FlashShape image pre run := by
  unfold flash_image at h
  simp only at h
  by_cases hok : (T.bl_get_info dev).1.1 = true
  · simp only [hok, Bool.not_true, Bool.false_eq_true, if_false] at h
    split at h
    · rename_i hel
      simp only [Option.some.injEq] at h
      subst h
      exact Or.inr (Or.inl ⟨_, erase_length_none hel, rfl, rfl⟩)
    · rename_i len hel
      by_cases he : (T.bl_erase (T.bl_get_info dev).2 (T.bl_get_info dev).1.2.flash_start len).1
          = true
      · simp only [he, Bool.not_true, Bool.false_eq_true, if_false] at h
        split at h
        · simp at h
        · rename_i st hst
          simp only [Option.some.injEq] at h
          subst h
          obtain ⟨ext, hcalls, hcmd, hlen, htot, hinv⟩ := write_loop_trace T image _ _ _ _ hst
          refine Or.inr (Or.inr (Or.inr ⟨(T.bl_get_info dev).1.2, len, ext, st.totalLength,
            st.totalCrc, (T.bl_seal st.dev 0x10010000 0x10010000 st.totalLength st.totalCrc).1,
            hel, ?_, ?_, hcmd, hlen, ?_, ?_⟩))
          · unfold seal_and_go
            simp only [write_init] at hcalls
            simp only
            split_ifs with hs
            · simp [hcalls, hs]
            · simp [hcalls, hs]
          · unfold seal_and_go
            simp only
            split_ifs <;> rfl
          · have := htot (by simp [write_init])
            simpa [write_init] using this
          · intro hL
            exact (hinv hL (by simp [write_init]) (by simp [write_init])).2
      · simp only [he, Bool.not_false, if_true, Option.some.injEq] at h
        subst h
        refine Or.inr (Or.inr (Or.inl ⟨(T.bl_get_info dev).1.2, len, hel, ?_, rfl⟩))
        simp only [Bool.not_eq_true] at he
        simp [he, restart]
  · simp only [hok, Bool.not_false, if_true, Option.some.injEq] at h
    subst h
    refine Or.inl ⟨(T.bl_get_info dev).1.2, ?_, rfl⟩
    simp only [Bool.not_eq_true] at hok
    simp [hok, restart]

/-- Every finished run of the update branch either restarts before `get_info`
or continues as `flash_image` does. -/
theorem app_main_update_shape {T : Transport σ} {image : List Nat} {fuel : Nat} {dev : σ}
    {run : Run σ} (h : app_main_update T image fuel dev = some run) :
    ∃ pre, Prelude pre ∧
      ((run.calls = pre ++ [Call.restart] ∧ run.outcome = Outcome.restarted) ∨
        FlashShape image pre run) := by
  unfold app_main_update at h
  simp only at h
  by_cases hv : (T.get_bootloader_version dev).1 = true
  · simp only [hv, Bool.not_true, Bool.false_eq_true, if_false] at h
    split at h
    · simp at h
    · rename_i run1 hw
      simp only [Option.some.injEq] at h
      subst h
      obtain ⟨ext, hall, hc, ho⟩ := wait_bl_state_trace T _ _ _ _ hw
      refine ⟨[Call.get_bootloader_version true] ++ ext, ?_, Or.inl ⟨hc, ho⟩⟩
      intro c hc
      rcases List.mem_append.mp hc with h1 | h1
      · rw [List.mem_singleton.mp h1]; exact Or.inl rfl
      · exact Or.inr (Or.inl (hall c h1))
    · rename_i d calls hw
      obtain ⟨ext, hall, hc⟩ := wait_bl_state_trace T _ _ _ _ hw
      simp only at hc
      split at h
      · simp at h
      · rename_i d2 calls2 hs
        obtain ⟨n, hn⟩ := sync_until_ack_trace T _ _ _ _ _ hs
        refine ⟨calls2, ?_, Or.inr (flash_image_shape h)⟩
        intro c hcm
        rw [hn, hc] at hcm
        simp only [List.mem_append, List.mem_singleton] at hcm
        rcases hcm with (rfl | h1) | h1 | rfl
        · exact Or.inl rfl
        · exact Or.inr (Or.inl (hall c h1))
        · rw [List.eq_of_mem_replicate h1]; exact Or.inr (Or.inr rfl)
        · exact Or.inr (Or.inr rfl)
  · simp only [hv, Bool.not_false, if_true, Option.some.injEq] at h
    subst h
    refine ⟨[Call.get_bootloader_version false], ?_, Or.inl ⟨?_, rfl⟩⟩
    · intro c hc
      rw [List.mem_singleton.mp hc]; exact Or.inl rfl
    · simp only [Bool.not_eq_true] at hv
      simp [hv, restart]

theorem tx_buffer_eq_padded_block {image : List Nat} {W k : Nat} {st : WriteState σ}
    (hL : image.length < 4294967296) (hp : st.position = k * W) (hk : k * W ≤ image.length)
    (ht : st.txSize = W) : tx_buffer image W st = padded_block image W k := by
  have hp2 : st.position ≤ image.length := by omega
  unfold tx_buffer memcpy memset_zero padded_block
  rw [clamped_txSize_eq hL hp2, ht, hp, List.drop_replicate, List.length_take, List.length_drop]
  congr 1
  by_cases hc : W ≤ image.length - k * W
  · rw [Nat.min_eq_left hc]
  · have h1 : min W (image.length - k * W) = image.length - k * W := by omega
    rw [h1, List.take_of_length_le (by simp), List.take_of_length_le (by simp; omega)]

/-- Against a verifying device the write loop, entered at block `k` with `n`
blocks left, finishes within `n + 1` passes, having written exactly those
blocks. -/
theorem write_loop_verified {T : Transport σ} (hT : Verifying T) {image : List Nat} {W : Nat}
    (hL : image.length < 4294967296) {q : Nat} (hq1 : image.length ≤ q * W)
    (hq2 : q * W < image.length + W) :
    ∀ (n k fuel : Nat) (st : WriteState σ), k + n = q → n < fuel →
      st.position = min (k * W) image.length → (k < q → st.txSize = W) →
      ∃ st1, write_loop T image W fuel st = some st1 ∧ st1.position = image.length ∧
        st1.calls = st.calls ++ (List.range' k n).map (verified_write image W) := by
  intro n
  induction n with
  | zero =>
    intro k fuel st hk hf hp _
    obtain ⟨fuel, rfl⟩ : ∃ f, fuel = f + 1 := ⟨fuel - 1, by omega⟩
    have hkq : k = q := by omega
    have hpL : st.position = image.length := by rw [hp, hkq]; omega
    have h0 : clamped_txSize image st = 0 := by
      rw [clamped_txSize_eq hL (by omega), hpL]; simp
    refine ⟨{ st with txSize := clamped_txSize image st }, ?_, hpL, by simp⟩
    unfold write_loop
    rw [write_iter_eq, if_pos h0]
  | succ n ih =>
    intro k fuel st hk hf hp ht
    obtain ⟨fuel, rfl⟩ : ∃ f, fuel = f + 1 := ⟨fuel - 1, by omega⟩
    have hkq : k < q := by omega
    have hmul : (k + 1) * W = k * W + W := Nat.succ_mul k W
    have hle : (k + 1) * W ≤ q * W := Nat.mul_le_mul_right W hkq
    have hW : 0 < W := by
      rcases Nat.eq_zero_or_pos W with h | h
      · subst h
        rw [Nat.mul_zero] at hq1 hq2
        omega
      · exact h
    have hpk : st.position = k * W := by rw [hp]; omega
    have htx : st.txSize = W := ht hkq
    have hc : clamped_txSize image st = min W (image.length - k * W) := by
      rw [clamped_txSize_eq hL (by omega), htx, hpk]
    have h0 : clamped_txSize image st ≠ 0 := by rw [hc]; omega
    have hbuf : tx_buffer image W st = padded_block image W k :=
      tx_buffer_eq_padded_block hL hpk (by omega) htx
    have hrep := hT st.dev (u32_add 0x10010000 st.position) W (tx_buffer image W st)
    have hiter : ∃ st2, write_iter T image W fuel st = some (false, st2) ∧
        st2.position = u32_add st.position (clamped_txSize image st) ∧
        st2.txSize = clamped_txSize image st ∧
        st2.calls = st.calls ++ [verified_write image W k] := by
      refine ⟨WriteState.mk (u32_add st.position (clamped_txSize image st))
          (clamped_txSize image st) (crc32_le 0 (tx_buffer image W st) W)
          (crc32_le st.totalCrc (tx_buffer image W st) W) (u32_add st.totalLength W)
          (T.bl_write st.dev (u32_add 0x10010000 st.position) W (tx_buffer image W st)).2
          (st.calls ++ [verified_write image W k]), ?_, rfl, rfl, rfl⟩
      rw [write_iter_eq, if_neg h0, hrep]
      simp [verified_write, hbuf, hpk]
    obtain ⟨st2, hiter, h2p, h2t, h2c⟩ := hiter
    have hmul2 : (k + 1 + 1) * W = (k + 1) * W + W := Nat.succ_mul (k + 1) W
    obtain ⟨st1, hrun, hpos, hcalls⟩ := ih (k + 1) fuel st2 (by omega) (by omega)
      (by rw [h2p, hc, hpk, u32_add_of_lt (by omega)]; omega)
      (fun hk1 => by
        have hle2 : (k + 1 + 1) * W ≤ q * W := Nat.mul_le_mul_right W hk1
        rw [h2t, hc]; omega)
    refine ⟨st1, ?_, hpos, ?_⟩
    · unfold write_loop
      rw [hiter]
      exact hrun
    · rw [hcalls, h2c, List.range'_succ]
      simp

/-- The number of blocks `⌈L / W⌉` is bracketed by the image length. -/
theorem ceil_div_bounds (L : Nat) {W : Nat} (hW : 0 < W) :
    L ≤ ((L + W - 1) / W) * W ∧ ((L + W - 1) / W) * W < L + W := by
  have h1 : (L + W - 1) / W * W ≤ L + W - 1 := Nat.div_mul_le_self _ _
  have h2 : L + W - 1 < ((L + W - 1) / W + 1) * W := by
    have := @Nat.lt_div_mul_add (L + W - 1) W hW
    rw [Nat.succ_mul]
    omega
  rw [Nat.succ_mul] at h2
  omega


/-! ## Facts about padded blocks -/

theorem padded_block_length (image : List Nat) (W k : Nat) :
    (padded_block image W k).length = W := by
  unfold padded_block
  simp only [List.length_append, List.length_take, List.length_drop, List.length_replicate]
  omega

theorem write_calls_verified (image : List Nat) (W : Nat) (ks : List Nat) :
    write_calls (ks.map (verified_write image W)) =
      ks.map (fun k => (u32_add 0x10010000 (k * W), W, padded_block image W k)) := by
  induction ks with
  | nil => rfl
  | cons k ks ih =>
    simp only [List.map_cons]
    rw [← ih]
    rfl

theorem last_padded_block {image : List Nat} {W q : Nat} (hq : 0 < q)
    (hq1 : image.length ≤ q * W) (hq2 : q * W < image.length + W) :
    padded_block image W (q - 1) =
      image.drop (W * (q - 1)) ++ List.replicate (W * q - image.length) 0 := by
  obtain ⟨r, rfl⟩ : ∃ r, q = r + 1 := ⟨q - 1, by omega⟩
  have hmul : (r + 1) * W = r * W + W := Nat.succ_mul r W
  have hcomm : W * r = r * W := Nat.mul_comm W r
  have hcomm2 : W * (r + 1) = r * W + W := by rw [Nat.mul_comm, hmul]
  unfold padded_block
  simp only [Nat.add_sub_cancel]
  rw [List.take_of_length_le (by simp; omega), hcomm, hcomm2, List.length_drop]
  congr 2
  rw [hmul] at hq1
  rw [hmul] at hq2
  generalize r * W = m at hq1 hq2 ⊢
  omega

/-! ## Claims -/

/-- Claim C1: against a device that acknowledges every write with the matching
CRC, the write loop entered at line 472 finishes and has issued exactly
`⌈L / W⌉` calls, all of them write calls with length argument `W` and a buffer
of exactly `W` bytes, and the buffer of the last call is the rest of the image
followed by zero bytes only. -/
theorem write_loop_block_count (T : Transport σ) (hT : Verifying T) (image : List Nat) (W : Nat)
    (hW : 0 < W) (hL : image.length < 4294967296) (dev : σ) (calls0 : List Call) (fuel : Nat)
    (hfuel : (image.length + W - 1) / W < fuel) :
    ∃ st ws, write_loop T image W fuel (write_init W dev calls0) = some st ∧
      st.calls = calls0 ++ ws ∧
      ws.length = (image.length + W - 1) / W ∧
      (write_calls ws).length = (image.length + W - 1) / W ∧
      (∀ w ∈ write_calls ws, w.2.1 = W ∧ w.2.2.length = W) ∧
      (∀ w, (write_calls ws).getLast? = some w →
        w.2.2 = image.drop (W * ((image.length + W - 1) / W - 1)) ++
          List.replicate (W * ((image.length + W - 1) / W) - image.length) 0) := by
  obtain ⟨hq1, hq2⟩ := ceil_div_bounds image.length hW
  obtain ⟨st, hrun, _, hcalls⟩ := write_loop_verified hT hL hq1 hq2
    ((image.length + W - 1) / W) 0 fuel (write_init W dev calls0) (by omega) hfuel
    (by simp [write_init]) (fun _ => rfl)
  refine ⟨st, _, hrun, hcalls, by simp, ?_, ?_, ?_⟩
  · rw [write_calls_verified]; simp
  · intro w hw
    rw [write_calls_verified, List.mem_map] at hw
    obtain ⟨k, _, rfl⟩ := hw
    exact ⟨rfl, padded_block_length image W k⟩
  · intro w hw
    rw [write_calls_verified, ← List.range_eq_range'] at hw
    rcases Nat.eq_zero_or_pos ((image.length + W - 1) / W) with h0 | hpos
    · rw [h0] at hw; simp at hw
    · obtain ⟨r, hr⟩ : ∃ r, (image.length + W - 1) / W = r + 1 :=
        ⟨(image.length + W - 1) / W - 1, by omega⟩
      rw [hr, List.range_succ, List.map_append, List.map_singleton,
        List.getLast?_append_of_ne_nil _ (by simp)] at hw
      simp only [List.getLast?_singleton, Option.some.injEq] at hw
      rw [← hw]
      have := @last_padded_block image W _ hpos hq1 hq2
      rw [hr] at this ⊢
      simpa using this

/-- Witness for claim C1: a 10-byte image sent in 4-byte blocks to the scripted
device that verifies every block. -/
theorem write_loop_block_count_witness :
    Verifying (scripted all_ok) ∧ 0 < 4 ∧ [1, 2, 3, 4, 5, 6, 7, 8, 9, 10].length < 4294967296 ∧
      ([1, 2, 3, 4, 5, 6, 7, 8, 9, 10].length + 4 - 1) / 4 < 4 ∧
      ∃ st ws, write_loop (scripted all_ok) [1, 2, 3, 4, 5, 6, 7, 8, 9, 10] 4 4
          (write_init 4 0 []) = some st ∧
        st.calls = [] ++ ws ∧
        ws.length = ([1, 2, 3, 4, 5, 6, 7, 8, 9, 10].length + 4 - 1) / 4 ∧
        (write_calls ws).length = ([1, 2, 3, 4, 5, 6, 7, 8, 9, 10].length + 4 - 1) / 4 ∧
        (∀ w ∈ write_calls ws, w.2.1 = 4 ∧ w.2.2.length = 4) ∧
        (∀ w, (write_calls ws).getLast? = some w →
          w.2.2 = [1, 2, 3, 4, 5, 6, 7, 8, 9, 10].drop
              (4 * (([1, 2, 3, 4, 5, 6, 7, 8, 9, 10].length + 4 - 1) / 4 - 1)) ++
            List.replicate
              (4 * (([1, 2, 3, 4, 5, 6, 7, 8, 9, 10].length + 4 - 1) / 4) -
                [1, 2, 3, 4, 5, 6, 7, 8, 9, 10].length) 0) :=
  ⟨fun _ _ _ _ => rfl, by decide, by decide, by decide,
    write_loop_block_count (scripted all_ok) (fun _ _ _ _ => rfl) [1, 2, 3, 4, 5, 6, 7, 8, 9, 10] 4
      (by decide) (by decide) 0 [] 4 (by decide)⟩



/-- Claim C4: when every write call returns success with the CRC of the block
sent, the write loop terminates (within `⌈L / W⌉ + 1` passes) with `position`
equal to `L`, no sync call was made inside the loop, and the seal call with
the loop's totals follows. -/
theorem write_loop_verified_reaches_seal (T : Transport σ) (hT : Verifying T)
    (image : List Nat) (W : Nat) (hW : 0 < W) (hL : image.length < 4294967296) (dev : σ)
    (calls0 : List Call) (fuel : Nat) (hfuel : (image.length + W - 1) / W < fuel) :
    ∃ st ws, write_loop T image W fuel (write_init W dev calls0) = some st ∧
      st.position = image.length ∧
      st.calls = calls0 ++ ws ∧
      (∀ c ∈ ws, c.cmd ≠ Cmd.sync) ∧
      ∃ ok, Call.seal 0x10010000 0x10010000 st.totalLength st.totalCrc ok ∈
        (seal_and_go T st).calls := by
  obtain ⟨hq1, hq2⟩ := ceil_div_bounds image.length hW
  obtain ⟨st, hrun, hpos, hcalls⟩ := write_loop_verified hT hL hq1 hq2
    ((image.length + W - 1) / W) 0 fuel (write_init W dev calls0) (by omega) hfuel
    (by simp [write_init]) (fun _ => rfl)
  refine ⟨st, _, hrun, hpos, hcalls, ?_, ?_⟩
  · intro c hc
    rw [List.mem_map] at hc
    obtain ⟨k, _, rfl⟩ := hc
    simp [verified_write, Call.cmd]
  · refine ⟨(T.bl_seal st.dev 0x10010000 0x10010000 st.totalLength st.totalCrc).1, ?_⟩
    unfold seal_and_go
    simp only
    split_ifs <;> simp

/-- Witness for claim C4: a 5-byte image sent in 4-byte blocks to the scripted
device that verifies every block. -/
theorem write_loop_verified_reaches_seal_witness :
    Verifying (scripted all_ok) ∧ 0 < 4 ∧ [1, 2, 3, 4, 5].length < 4294967296 ∧
      ([1, 2, 3, 4, 5].length + 4 - 1) / 4 < 3 ∧
      ∃ st ws, write_loop (scripted all_ok) [1, 2, 3, 4, 5] 4 3 (write_init 4 0 []) = some st ∧
        st.position = [1, 2, 3, 4, 5].length ∧
        st.calls = [] ++ ws ∧
        (∀ c ∈ ws, c.cmd ≠ Cmd.sync) ∧
        ∃ ok, Call.seal 0x10010000 0x10010000 st.totalLength st.totalCrc ok ∈
          (seal_and_go (scripted all_ok) st).calls :=
  ⟨fun _ _ _ _ => rfl, by decide, by decide, by decide,
    write_loop_verified_reaches_seal (scripted all_ok) (fun _ _ _ _ => rfl) [1, 2, 3, 4, 5] 4
      (by decide) (by decide) 0 [] 3 (by decide)⟩

/-- Claim C3, counterexample: for a 5000-byte image and a flash of 8192 bytes
with 4096-byte erase blocks the erase length is 4096, which is below the image
length; for a 9000-byte image and a flash of 10000 bytes it is 5904, which is
not a multiple of 4096 either.  So the claim does not hold for every
geometry. -/
theorem erase_length_below_image :
    (erase_length 5000 8192 4096 = some 4096 ∧ ¬ 5000 ≤ 4096) ∧
    (erase_length 9000 10000 4096 = some 5904 ∧ ¬ 4096 ∣ 5904 ∧ ¬ 9000 ≤ 5904) ∧
    ¬ (∀ L flash_size erase_size len, L < 4294967296 → flash_size < 4294967296 →
        erase_size < 4294967296 → 0 < erase_size →
        erase_length L flash_size erase_size = some len →
        erase_size ∣ len ∧ len ≤ u32_sub flash_size erase_size ∧ L ≤ len) := by
  refine ⟨by decide, by decide, ?_⟩
  intro h
  have h1 := h 5000 8192 4096 4096 (by decide) (by decide) (by decide) (by decide) (by decide)
  exact absurd h1.2.2 (by decide)

/-- Claim C3, amended: for every image length and every geometry with
`erase_size > 0` the erase length is defined and at most
`flash_size - erase_size` (in 32-bit arithmetic, which is the plain difference
when `erase_size ≤ flash_size`).  When the clamp of lines 454-456 applies, that
is when the 32-bit value of `L + erase_size - L % erase_size` is above
`flash_size - erase_size`, the erase length is exactly
`flash_size - erase_size`.  When
`L + erase_size - L % erase_size` fits in 32 bits, the erase length is a
multiple of `erase_size` if the clamp does not apply or if `flash_size` is
itself a multiple of `erase_size` and not below it, and the erase length is at
least `L` if the clamp does not apply. -/
theorem erase_length_bounds (L flash_size erase_size : Nat) (hE : 0 < erase_size) :
    ∃ len, erase_length L flash_size erase_size = some len ∧
      len ≤ u32_sub flash_size erase_size ∧
      (erase_size ≤ flash_size → flash_size < 4294967296 → len ≤ flash_size - erase_size) ∧
      (u32_sub flash_size erase_size < u32_sub (u32_add L erase_size) (L % erase_size) →
        len = u32_sub flash_size erase_size) ∧
      (L + erase_size - L % erase_size < 4294967296 →
        (L + erase_size - L % erase_size ≤ u32_sub flash_size erase_size →
          erase_size ∣ len ∧ L ≤ len) ∧
        (erase_size ∣ flash_size → erase_size ≤ flash_size → flash_size < 4294967296 →
          erase_size ∣ len)) := by
  have hne : erase_size ≠ 0 := Nat.pos_iff_ne_zero.mp hE
  have hr : L % erase_size ≤ L := Nat.mod_le L erase_size
  have hr2 : L % erase_size < erase_size := Nat.mod_lt L hE
  have hdvd : erase_size ∣ L + erase_size - L % erase_size := by
    have hdm : erase_size * (L / erase_size) + L % erase_size = L := Nat.div_add_mod L erase_size
    have hform : L + erase_size - L % erase_size = erase_size * (L / erase_size + 1) := by
      rw [Nat.mul_add, Nat.mul_one]
      omega
    rw [hform]
    exact Dvd.intro _ rfl
  by_cases hc : u32_sub (u32_add L erase_size) (L % erase_size) > u32_sub flash_size erase_size
  · refine ⟨u32_sub flash_size erase_size, ?_, le_refl _, ?_, fun _ => rfl, ?_⟩
    · simp [erase_length, hne, hc]
    · intro h1 h2
      rw [u32_sub_of_le h1 h2]
    · intro hno
      refine ⟨?_, ?_⟩
      · intro hfit
        rw [rounded_eq hE hno] at hc
        omega
      · intro hd h1 h2
        rw [u32_sub_of_le h1 h2]
        exact Nat.dvd_sub' hd (dvd_refl erase_size)
  · refine ⟨u32_sub (u32_add L erase_size) (L % erase_size), ?_, by omega, ?_,
      fun hgt => by omega, ?_⟩
    · simp [erase_length, hne, hc]
    · intro h1 h2
      rw [← u32_sub_of_le h1 h2]
      omega
    · intro hno
      rw [rounded_eq hE hno]
      exact ⟨fun _ => ⟨hdvd, by omega⟩, fun _ _ _ => hdvd⟩

/-- Witness for claim C3 (amended): the example of the specification, a
2500-byte image with 4096-byte erase blocks in a flash of 0x1F0000 bytes, where
the clamp does not apply, and a 5000-byte image in a flash of 8192 bytes, where
it does. -/
theorem erase_length_bounds_witness :
    (0 < 4096 ∧
      ∃ len, erase_length 2500 0x1F0000 4096 = some len ∧
        len ≤ u32_sub 0x1F0000 4096 ∧
        (4096 ≤ 0x1F0000 → 0x1F0000 < 4294967296 → len ≤ 0x1F0000 - 4096) ∧
        (u32_sub 0x1F0000 4096 < u32_sub (u32_add 2500 4096) (2500 % 4096) →
          len = u32_sub 0x1F0000 4096) ∧
        (2500 + 4096 - 2500 % 4096 < 4294967296 →
          (2500 + 4096 - 2500 % 4096 ≤ u32_sub 0x1F0000 4096 → 4096 ∣ len ∧ 2500 ≤ len) ∧
          (4096 ∣ 0x1F0000 → 4096 ≤ 0x1F0000 → 0x1F0000 < 4294967296 → 4096 ∣ len))) ∧
    (0 < 4096 ∧ u32_sub 8192 4096 < u32_sub (u32_add 5000 4096) (5000 % 4096) ∧
      ∃ len, erase_length 5000 8192 4096 = some len ∧
        len ≤ u32_sub 8192 4096 ∧
        (4096 ≤ 8192 → 8192 < 4294967296 → len ≤ 8192 - 4096) ∧
        (u32_sub 8192 4096 < u32_sub (u32_add 5000 4096) (5000 % 4096) →
          len = u32_sub 8192 4096) ∧
        (5000 + 4096 - 5000 % 4096 < 4294967296 →
          (5000 + 4096 - 5000 % 4096 ≤ u32_sub 8192 4096 → 4096 ∣ len ∧ 5000 ≤ len) ∧
          (4096 ∣ 8192 → 4096 ≤ 8192 → 8192 < 4294967296 → 4096 ∣ len))) :=
  ⟨⟨by decide, erase_length_bounds 2500 0x1F0000 4096 (by decide)⟩,
    ⟨by decide, by decide, erase_length_bounds 5000 8192 4096 (by decide)⟩⟩

/-- Claim C7: for an image of exactly 4096 bytes and 4096-byte erase blocks, in
a flash where the clamp does not apply, the code computes an erase length of
8192, while the smallest multiple of 4096 that is at least 4096 is 4096; for
2500 bytes both give 4096. -/
theorem erase_length_exact_multiple :
    erase_length 4096 0x1F0000 4096 = some 8192 ∧ round_up_spec 4096 4096 = 4096 ∧
      8192 ≤ u32_sub 0x1F0000 4096 ∧
      erase_length 2500 0x1F0000 4096 = some 4096 ∧ round_up_spec 2500 4096 = 4096 := by
  decide


set_option maxRecDepth 100000 in
/-- Claim C2: a 5-byte image in 4-byte blocks, the first write call answered
with a wrong CRC: the loop finishes, block 0 was sent twice and was folded into
`totalCrc` twice, so `totalCrc` differs from the CRC-32 of the two padded
blocks taken once. -/
theorem retried_block_folded_twice :
    (write_loop (scripted (one_bad_write 0)) [1, 2, 3, 4, 5] 4 8 (write_init 4 0 [])).map
        (fun st => (st.position, st.totalCrc, write_calls st.calls)) =
      some (5, crc32_le (crc32_le (crc32_le 0 [1, 2, 3, 4] 4) [1, 2, 3, 4] 4) [5, 0, 0, 0] 4,
        [(0x10010000, 4, [1, 2, 3, 4]), (0x10010000, 4, [1, 2, 3, 4]),
          (0x10010004, 4, [5, 0, 0, 0])]) ∧
    crc32_le (crc32_le (crc32_le 0 [1, 2, 3, 4] 4) [1, 2, 3, 4] 4) [5, 0, 0, 0] 4 ≠
      crc32_le 0 (padded_block [1, 2, 3, 4, 5] 4 0 ++ padded_block [1, 2, 3, 4, 5] 4 1) 8 := by
  decide

set_option maxRecDepth 100000 in
/-- Claim C5: a 5-byte image in 4-byte blocks; the run in which the write of
block 1 is answered once with a wrong CRC and then verified ends at the same
`position` as the run without mismatch, but with a different `totalCrc`. -/
theorem single_mismatch_changes_total_crc :
    (write_loop (scripted (one_bad_write 1)) [1, 2, 3, 4, 5] 4 8 (write_init 4 0 [])).map
        (fun st => st.position) = some 5 ∧
    (write_loop (scripted all_ok) [1, 2, 3, 4, 5] 4 8 (write_init 4 0 [])).map
        (fun st => st.position) = some 5 ∧
    (write_loop (scripted (one_bad_write 1)) [1, 2, 3, 4, 5] 4 8 (write_init 4 0 [])).map
        (fun st => st.totalCrc) =
      some (crc32_le (crc32_le (crc32_le 0 [1, 2, 3, 4] 4) [5, 0, 0, 0] 4) [5, 0, 0, 0] 4) ∧
    (write_loop (scripted all_ok) [1, 2, 3, 4, 5] 4 8 (write_init 4 0 [])).map
        (fun st => st.totalCrc) = some (crc32_le (crc32_le 0 [1, 2, 3, 4] 4) [5, 0, 0, 0] 4) ∧
    crc32_le (crc32_le (crc32_le 0 [1, 2, 3, 4] 4) [5, 0, 0, 0] 4) [5, 0, 0, 0] 4 ≠
      crc32_le (crc32_le 0 [1, 2, 3, 4] 4) [5, 0, 0, 0] 4 := by
  refine ⟨?_, ?_, ?_, ?_, ?_⟩
  · decide
  · decide
  · decide
  · decide
  · decide


theorem prelude_cmd {pre : List Call} (hp : Prelude pre) {c : Call} (hc : c ∈ pre) :
    c.cmd ≠ Cmd.seal ∧ c.cmd ≠ Cmd.go ∧ c.cmd ≠ Cmd.write ∧ c.cmd ≠ Cmd.restart ∧
      c.cmd ≠ Cmd.get_info ∧ c.cmd ≠ Cmd.erase := by
  rcases hp c hc with h | h | h <;> simp [h]

theorem sum_map_const {α : Type} (f : α → Nat) (W : Nat) :
    ∀ (l : List α), (∀ x ∈ l, f x = W) → (l.map f).sum = W * l.length := by
  intro l
  induction l with
  | nil => intro _; simp
  | cons x xs ih =>
    intro h
    rw [List.map_cons, List.sum_cons, h x (List.mem_cons_self _ _),
      ih (fun y hy => h y (List.mem_cons_of_mem _ hy)), List.length_cons, Nat.mul_succ]
    omega

/-- A finished run that contains a write, seal or go call went through the
whole write loop: it is a body without seal, go and restart, then the seal call
with the loop's totals, then `go` exactly when the seal succeeded. -/
theorem seal_phase {T : Transport σ} {image : List Nat} {fuel : Nat} {dev : σ} {run : Run σ}
    (h : app_main_update T image fuel dev = some run)
    (hc : ∃ c ∈ run.calls, c.cmd = Cmd.seal ∨ c.cmd = Cmd.go ∨ c.cmd = Cmd.write) :
    ∃ body info tl tc ok,
      run.calls = body ++ (Call.seal 0x10010000 0x10010000 tl tc ok ::
        (if ok then [Call.go 0x10010000] else [])) ∧
      run.outcome = Outcome.holding ∧
      (∀ c ∈ body, c.cmd ≠ Cmd.seal ∧ c.cmd ≠ Cmd.go ∧ c.cmd ≠ Cmd.restart) ∧
      Call.get_info true info ∈ body ∧
      write_calls run.calls = write_calls body ∧
      (∀ w ∈ write_calls body, w.2.1 = info.write_size) ∧
      tl = (info.write_size * (write_calls body).length) % 4294967296 ∧
      (image.length < 4294967296 → ∀ w ∈ write_calls body, w.2.2.length = info.write_size) := by
  obtain ⟨c, hcm, hcc⟩ := hc
  obtain ⟨pre, hpre, hshape⟩ := app_main_update_shape h
  rcases hshape with ⟨hcalls, _⟩ | ⟨info, hcalls, _⟩ | ⟨info, _, hcalls, _⟩ |
    ⟨info, len, _, hcalls, _⟩ | ⟨info, len, ext, tl, tc, ok, _, hcalls, hout, hext, hlen, htl, hbuf⟩
  · exfalso
    rw [hcalls] at hcm
    simp only [List.mem_append, List.mem_singleton] at hcm
    rcases hcm with h1 | rfl
    · have := prelude_cmd hpre h1
      rcases hcc with h2 | h2 | h2 <;> simp [h2] at this
    · simp [Call.cmd] at hcc
  · exfalso
    rw [hcalls] at hcm
    simp only [List.mem_append, List.mem_cons, List.mem_singleton, List.not_mem_nil,
      or_false] at hcm
    rcases hcm with h1 | rfl | rfl
    · have := prelude_cmd hpre h1
      rcases hcc with h2 | h2 | h2 <;> simp [h2] at this
    · simp [Call.cmd] at hcc
    · simp [Call.cmd] at hcc
  · exfalso
    rw [hcalls] at hcm
    simp only [List.mem_append, List.mem_singleton] at hcm
    rcases hcm with h1 | rfl
    · have := prelude_cmd hpre h1
      rcases hcc with h2 | h2 | h2 <;> simp [h2] at this
    · simp [Call.cmd] at hcc
  · exfalso
    rw [hcalls] at hcm
    simp only [List.mem_append, List.mem_cons, List.mem_singleton, List.not_mem_nil,
      or_false] at hcm
    rcases hcm with h1 | rfl | rfl | rfl
    · have := prelude_cmd hpre h1
      rcases hcc with h2 | h2 | h2 <;> simp [h2] at this
    · simp [Call.cmd] at hcc
    · simp [Call.cmd] at hcc
    · simp [Call.cmd] at hcc
  · have hwb : write_calls (pre ++ [Call.get_info true info,
        Call.erase info.flash_start len true] ++ ext) = write_calls ext := by
      rw [write_calls_append, write_calls_append,
        write_calls_of_cmd_ne (fun c hc => (prelude_cmd hpre hc).2.2.1)]
      rfl
    refine ⟨pre ++ [Call.get_info true info, Call.erase info.flash_start len true] ++ ext,
      info, tl, tc, ok, hcalls, hout, ?_, by simp, ?_, ?_, ?_, ?_⟩
    · intro c hc
      simp only [List.mem_append, List.mem_cons, List.mem_singleton, List.not_mem_nil,
        or_false] at hc
      rcases hc with (h1 | rfl | rfl) | h1
      · have := prelude_cmd hpre h1
        exact ⟨this.1, this.2.1, this.2.2.2.1⟩
      · simp [Call.cmd]
      · simp [Call.cmd]
      · rcases hext c h1 with h2 | h2 <;> simp [h2]
    · rw [hcalls, write_calls_append]
      cases ok <;> simp [write_calls, Call.write_args]
    · rw [hwb]; exact hlen
    · rw [hwb]; exact htl
    · rw [hwb]; exact hbuf


/-- Claim C6: in every finished run that contains a seal call, the total
length passed to seal is `write_size` times the number of write calls of the
run, modulo 2^32, and also the sum of the lengths of the buffers of those
write calls, modulo 2^32, each buffer having exactly `write_size` bytes. -/
theorem seal_total_length (T : Transport σ) (image : List Nat) (fuel : Nat) (dev : σ)
    (run : Run σ) (hL : image.length < 4294967296)
    (h : app_main_update T image fuel dev = some run)
    (l e tl tc : Nat) (ok : Bool) (hseal : Call.seal l e tl tc ok ∈ run.calls) :
    ∃ info, Call.get_info true info ∈ run.calls ∧
      (∀ w ∈ write_calls run.calls, w.2.1 = info.write_size ∧ w.2.2.length = info.write_size) ∧
      tl = (info.write_size * (write_calls run.calls).length) % 4294967296 ∧
      tl = ((write_calls run.calls).map (fun w => w.2.2.length)).sum % 4294967296 := by
  obtain ⟨body, info, tl0, tc0, ok0, hcalls, _, hbody, hinfo, hwc, hlen, htl, hbuf⟩ :=
    seal_phase h ⟨_, hseal, Or.inl rfl⟩
  have htl0 : tl = tl0 := by
    rw [hcalls] at hseal
    simp only [List.mem_append, List.mem_cons] at hseal
    rcases hseal with h1 | h1 | h1
    · exact absurd rfl (hbody _ h1).1
    · simp only [Call.seal.injEq] at h1
      exact h1.2.2.1
    · cases ok0 <;> simp at h1
  refine ⟨info, ?_, ?_, ?_, ?_⟩
  · rw [hcalls]; exact List.mem_append_left _ hinfo
  · intro w hw
    rw [hwc] at hw
    exact ⟨hlen w hw, hbuf hL w hw⟩
  · rw [hwc, htl0]; exact htl
  · rw [hwc, htl0, htl,
      sum_map_const (fun (w : Nat × Nat × List Nat) => w.2.2.length) info.write_size _ (hbuf hL)]

set_option maxRecDepth 100000 in
/-- Witness for claim C6: the run in which the first write is retried; three
write calls of 4 bytes, and seal receives 12. -/
theorem seal_total_length_witness :
    [1, 2, 3, 4, 5].length < 4294967296 ∧
    app_main_update (scripted (one_bad_write 0)) [1, 2, 3, 4, 5] 8 0 = some retried_run ∧
    Call.seal 0x10010000 0x10010000 12 288943141 true ∈ retried_run.calls ∧
    ∃ info, Call.get_info true info ∈ retried_run.calls ∧
      (∀ w ∈ write_calls retried_run.calls,
        w.2.1 = info.write_size ∧ w.2.2.length = info.write_size) ∧
      12 = (info.write_size * (write_calls retried_run.calls).length) % 4294967296 ∧
      12 = ((write_calls retried_run.calls).map (fun w => w.2.2.length)).sum % 4294967296 :=
  ⟨by decide, by decide, by decide,
    seal_total_length (scripted (one_bad_write 0)) [1, 2, 3, 4, 5] 8 0 retried_run (by decide)
      (by decide) 0x10010000 0x10010000 12 288943141 true (by decide)⟩

set_option maxRecDepth 100000 in
/-- Claim C8, counterexample: a bootloader that reports
`flash_start = 0x10000000`; the erase call starts at `0x10000000`, but the
first write call, made at `position = 0`, has address `0x10010000`. -/
theorem write_address_ignores_flash_start :
    (app_main_update (scripted low_flash_start) [1, 2, 3, 4, 5] 8 0).map (fun r => r.calls) =
      some (scripted_prelude ++
        [Call.get_info true low_flash_start.info, Call.erase 0x10000000 4096 true,
          Call.write 0x10010000 4 [1, 2, 3, 4] true 3057449933,
          Call.write 0x10010004 4 [5, 0, 0, 0] true 379203374,
          Call.seal 0x10010000 0x10010000 8 2061363842 true, Call.go 0x10010000]) ∧
    (write_init 4 (0 : Nat) []).position = 0 ∧
    0x10010000 ≠ u32_add low_flash_start.info.flash_start 0 := by
  decide

/-- Claim C8, amended: every pass of the write loop that issues a write call
issues it with address `(0x10010000 + position) mod 2^32`, a constant base
that does not depend on the `flash_start` reported by the bootloader, with
length argument `write_size` and the buffer built for `position`, followed
only by sync calls; and in every finished run the length argument of every
write call is the `write_size` reported by get_info. -/
theorem write_address_and_length (T : Transport σ) (image : List Nat) :
    (∀ W fuel (st st1 : WriteState σ), write_iter T image W fuel st = some (false, st1) →
      ∃ ok crc tail, st1.calls = st.calls ++
          Call.write (u32_add 0x10010000 st.position) W (tx_buffer image W st) ok crc :: tail ∧
        ∀ c ∈ tail, c.cmd = Cmd.sync) ∧
    (∀ fuel dev (run : Run σ), app_main_update T image fuel dev = some run →
      ∀ w ∈ write_calls run.calls,
        ∃ info, Call.get_info true info ∈ run.calls ∧ w.2.1 = info.write_size) := by
  constructor
  · intro W fuel st st1 h
    obtain ⟨_, _, _, _, _, ok, crc, _, hcase⟩ := write_iter_next h
    rcases hcase with ⟨_, _, _, hc⟩ | ⟨_, _, n, hc⟩
    · exact ⟨ok, crc, [], hc, by simp⟩
    · refine ⟨ok, crc, _, hc, ?_⟩
      intro c hc
      rcases List.mem_append.mp hc with h1 | h1
      · rw [List.eq_of_mem_replicate h1]; rfl
      · rw [List.mem_singleton.mp h1]; rfl
  · intro fuel dev run h w hw
    have hex : ∃ c ∈ run.calls, c.cmd = Cmd.seal ∨ c.cmd = Cmd.go ∨ c.cmd = Cmd.write := by
      unfold write_calls at hw
      rw [List.mem_filterMap] at hw
      obtain ⟨c, hc, hcw⟩ := hw
      refine ⟨c, hc, Or.inr (Or.inr ?_)⟩
      cases c <;> simp [Call.write_args] at hcw
      rfl
    obtain ⟨body, info, tl0, tc0, ok0, hcalls, _, _, hinfo, hwc, hlen, _, _⟩ := seal_phase h hex
    refine ⟨info, ?_, ?_⟩
    · rw [hcalls]; exact List.mem_append_left _ hinfo
    · rw [hwc] at hw
      exact hlen w hw

set_option maxRecDepth 100000 in
/-- Witness for claim C8 (amended): the first pass of the write loop and the
whole run for the image `[1, 2, 3, 4, 5]` against `scripted all_ok`. -/
theorem write_address_and_length_witness :
    (write_iter (scripted all_ok) [1, 2, 3, 4, 5] 4 0 (write_init 4 0 []) =
        some (false, first_pass_state) ∧
      ∃ ok crc tail, first_pass_state.calls = (write_init 4 (0 : Nat) []).calls ++
          Call.write (u32_add 0x10010000 (write_init 4 (0 : Nat) []).position) 4
            (tx_buffer [1, 2, 3, 4, 5] 4 (write_init 4 (0 : Nat) [])) ok crc :: tail ∧
        ∀ c ∈ tail, c.cmd = Cmd.sync) ∧
    (app_main_update (scripted all_ok) [1, 2, 3, 4, 5] 8 0 = some verified_run ∧
      (0x10010004, 4, [5, 0, 0, 0]) ∈ write_calls verified_run.calls ∧
      ∃ info, Call.get_info true info ∈ verified_run.calls ∧ 4 = info.write_size) :=
  ⟨⟨by decide,
      (write_address_and_length (scripted all_ok) [1, 2, 3, 4, 5]).1 4 0 (write_init 4 0 [])
        first_pass_state (by decide)⟩,
    ⟨by decide, by decide,
      (write_address_and_length (scripted all_ok) [1, 2, 3, 4, 5]).2 8 0 verified_run (by decide)
        (0x10010004, 4, [5, 0, 0, 0]) (by decide)⟩⟩


/-- Claim C9: in every finished run, a go call is the last call of the run and
directly follows a seal call that returned success, with no seal, go or
restart before that seal; and a seal call that returned failure is the last
call of the run, no go and no restart occurs anywhere in the run, and the run
ends in the holding loop. -/
theorem go_only_after_successful_seal (T : Transport σ) (image : List Nat) (fuel : Nat)
    (dev : σ) (run : Run σ) (h : app_main_update T image fuel dev = some run) :
    (∀ e, Call.go e ∈ run.calls →
      ∃ body tl tc,
        run.calls = body ++ [Call.seal 0x10010000 0x10010000 tl tc true, Call.go e] ∧
        (∀ c ∈ body, c.cmd ≠ Cmd.seal ∧ c.cmd ≠ Cmd.go ∧ c.cmd ≠ Cmd.restart) ∧
        run.outcome = Outcome.holding) ∧
    (∀ l en tl tc, Call.seal l en tl tc false ∈ run.calls →
      ∃ body, run.calls = body ++ [Call.seal l en tl tc false] ∧
        (∀ c ∈ body, c.cmd ≠ Cmd.seal ∧ c.cmd ≠ Cmd.go ∧ c.cmd ≠ Cmd.restart) ∧
        run.outcome = Outcome.holding) := by
  constructor
  · intro e hgo
    obtain ⟨body, info, tl0, tc0, ok0, hcalls, hout, hbody, _⟩ :=
      seal_phase h ⟨_, hgo, Or.inr (Or.inl rfl)⟩
    rw [hcalls] at hgo
    simp only [List.mem_append, List.mem_cons] at hgo
    rcases hgo with h1 | h1 | h1
    · exact absurd rfl (hbody _ h1).2.1
    · simp at h1
    · cases ok0 with
      | false => simp at h1
      | true =>
        simp only [if_true, List.mem_singleton, Call.go.injEq] at h1
        subst h1
        exact ⟨body, tl0, tc0, by simpa using hcalls, hbody, hout⟩
  · intro l en tl tc hseal
    obtain ⟨body, info, tl0, tc0, ok0, hcalls, hout, hbody, _⟩ :=
      seal_phase h ⟨_, hseal, Or.inl rfl⟩
    have hmem := hseal
    rw [hcalls] at hmem
    simp only [List.mem_append, List.mem_cons] at hmem
    rcases hmem with h1 | h1 | h1
    · exact absurd rfl (hbody _ h1).1
    · simp only [Call.seal.injEq] at h1
      obtain ⟨rfl, rfl, rfl, rfl, rfl⟩ := h1
      exact ⟨body, by simpa using hcalls, hbody, hout⟩
    · cases ok0 <;> simp at h1

set_option maxRecDepth 100000 in
/-- Witness for claim C9: the run in which seal succeeds and the run in which
seal fails, for the image `[1, 2, 3, 4, 5]`. -/
theorem go_only_after_successful_seal_witness :
    (app_main_update (scripted all_ok) [1, 2, 3, 4, 5] 8 0 = some verified_run ∧
      Call.go 0x10010000 ∈ verified_run.calls ∧
      ∃ body tl tc,
        verified_run.calls =
          body ++ [Call.seal 0x10010000 0x10010000 tl tc true, Call.go 0x10010000] ∧
        (∀ c ∈ body, c.cmd ≠ Cmd.seal ∧ c.cmd ≠ Cmd.go ∧ c.cmd ≠ Cmd.restart) ∧
        verified_run.outcome = Outcome.holding) ∧
    (app_main_update (scripted seal_fails) [1, 2, 3, 4, 5] 8 0 = some seal_failed_run ∧
      Call.seal 0x10010000 0x10010000 8 2061363842 false ∈ seal_failed_run.calls ∧
      ∃ body,
        seal_failed_run.calls = body ++ [Call.seal 0x10010000 0x10010000 8 2061363842 false] ∧
        (∀ c ∈ body, c.cmd ≠ Cmd.seal ∧ c.cmd ≠ Cmd.go ∧ c.cmd ≠ Cmd.restart) ∧
        seal_failed_run.outcome = Outcome.holding) :=
  ⟨⟨by decide, by decide,
      (go_only_after_successful_seal (scripted all_ok) [1, 2, 3, 4, 5] 8 0 verified_run
        (by decide)).1 0x10010000 (by decide)⟩,
    ⟨by decide, by decide,
      (go_only_after_successful_seal (scripted seal_fails) [1, 2, 3, 4, 5] 8 0 seal_failed_run
        (by decide)).2 0x10010000 0x10010000 8 2061363842 (by decide)⟩⟩

/-- In a finished run a failed get_info call, or a failed erase call, is
directly followed by `restart()`, which ends the run, and is preceded only by
the prelude (and, for erase, the one successful get_info). -/
theorem failed_call_trace {T : Transport σ} {image : List Nat} {fuel : Nat}
    {dev : σ} {run : Run σ} (h : app_main_update T image fuel dev = some run) :
    (∀ info, Call.get_info false info ∈ run.calls →
      ∃ pre, Prelude pre ∧ run.calls = pre ++ [Call.get_info false info, Call.restart] ∧
        run.outcome = Outcome.restarted) ∧
    (∀ s l, Call.erase s l false ∈ run.calls →
      ∃ pre info, Prelude pre ∧
        run.calls = pre ++ [Call.get_info true info, Call.erase s l false, Call.restart] ∧
        run.outcome = Outcome.restarted) := by
  obtain ⟨pre, hpre, hshape⟩ := app_main_update_shape h
  have hnot : ∀ c ∈ pre, c.cmd ≠ Cmd.get_info ∧ c.cmd ≠ Cmd.erase := fun c hc =>
    ⟨(prelude_cmd hpre hc).2.2.2.2.1, (prelude_cmd hpre hc).2.2.2.2.2⟩
  rcases hshape with ⟨hcalls, _⟩ | ⟨info, hcalls, hout⟩ | ⟨info, _, hcalls, _⟩ |
    ⟨info, len, _, hcalls, hout⟩ | ⟨info, len, ext, tl, tc, ok, _, hcalls, _, hext, _⟩
  · constructor
    · intro i hm
      rw [hcalls] at hm
      simp only [List.mem_append, List.mem_singleton] at hm
      rcases hm with h1 | h1
      · exact absurd rfl (hnot _ h1).1
      · simp at h1
    · intro s l hm
      rw [hcalls] at hm
      simp only [List.mem_append, List.mem_singleton] at hm
      rcases hm with h1 | h1
      · exact absurd rfl (hnot _ h1).2
      · simp at h1
  · constructor
    · intro i hm
      rw [hcalls] at hm
      simp only [List.mem_append, List.mem_cons, List.mem_singleton, List.not_mem_nil,
        or_false] at hm
      rcases hm with h1 | h1 | h1
      · exact absurd rfl (hnot _ h1).1
      · simp only [Call.get_info.injEq, true_and] at h1
        subst h1
        exact ⟨pre, hpre, hcalls, hout⟩
      · simp at h1
    · intro s l hm
      rw [hcalls] at hm
      simp only [List.mem_append, List.mem_cons, List.mem_singleton, List.not_mem_nil,
        or_false] at hm
      rcases hm with h1 | h1 | h1
      · exact absurd rfl (hnot _ h1).2
      · simp at h1
      · simp at h1
  · constructor
    · intro i hm
      rw [hcalls] at hm
      simp only [List.mem_append, List.mem_singleton] at hm
      rcases hm with h1 | h1
      · exact absurd rfl (hnot _ h1).1
      · simp at h1
    · intro s l hm
      rw [hcalls] at hm
      simp only [List.mem_append, List.mem_singleton] at hm
      rcases hm with h1 | h1
      · exact absurd rfl (hnot _ h1).2
      · simp at h1
  · constructor
    · intro i hm
      rw [hcalls] at hm
      simp only [List.mem_append, List.mem_cons, List.mem_singleton, List.not_mem_nil,
        or_false] at hm
      rcases hm with h1 | h1 | h1 | h1
      · exact absurd rfl (hnot _ h1).1
      · simp at h1
      · simp at h1
      · simp at h1
    · intro s l hm
      rw [hcalls] at hm
      simp only [List.mem_append, List.mem_cons, List.mem_singleton, List.not_mem_nil,
        or_false] at hm
      rcases hm with h1 | h1 | h1 | h1
      · exact absurd rfl (hnot _ h1).2
      · simp at h1
      · simp only [Call.erase.injEq, and_true] at h1
        obtain ⟨rfl, rfl⟩ := h1
        exact ⟨pre, info, hpre, hcalls, hout⟩
      · simp at h1
  · have hexts : ∀ c ∈ ext, c.cmd ≠ Cmd.get_info ∧ c.cmd ≠ Cmd.erase := by
      intro c hc
      rcases hext c hc with h2 | h2 <;> simp [h2]
    constructor
    · intro i hm
      rw [hcalls] at hm
      simp only [List.mem_append, List.mem_cons, List.mem_singleton, List.not_mem_nil,
        or_false] at hm
      rcases hm with ((h1 | h1 | h1) | h1) | h1 | h1
      · exact absurd rfl (hnot _ h1).1
      · simp at h1
      · simp at h1
      · exact absurd rfl (hexts _ h1).1
      · simp at h1
      · cases ok <;> simp at h1
    · intro s l hm
      rw [hcalls] at hm
      simp only [List.mem_append, List.mem_cons, List.mem_singleton, List.not_mem_nil,
        or_false] at hm
      rcases hm with ((h1 | h1 | h1) | h1) | h1 | h1
      · exact absurd rfl (hnot _ h1).2
      · simp at h1
      · simp at h1
      · exact absurd rfl (hexts _ h1).2
      · simp at h1
      · cases ok <;> simp at h1



/-! ## Invariant of the write loop -/

/-- At the top of every pass of the write loop: `position ≤ L`,
`txSize ≤ write_size`, `txSize` is still `write_size` or already covers the
rest of the image, and `position` is a multiple of `write_size` or the end of
the image. -/
theorem loop_head_invariant {T : Transport σ} {image : List Nat} {W : Nat} {st : WriteState σ}
    (hL : image.length < 4294967296) (h : LoopHead T image W st) :
    st.position ≤ image.length ∧ st.txSize ≤ W ∧
      (st.txSize = W ∨ image.length - st.position ≤ st.txSize) ∧
      (W ∣ st.position ∨ st.position = image.length) := by
  induction h with
  | entry dev calls => simp [write_init]
  | @pass st0 st1 fuel _ hit ih =>
    obtain ⟨hp, ht, hfull, hdvd⟩ := ih
    obtain ⟨h0, htx, _, _, _, ok, crc, _, hcase⟩ := write_iter_next hit
    have hc := @clamped_txSize_eq _ image st0 hL hp
    rcases hcase with ⟨_, _, hpos, _⟩ | ⟨_, hpos, _⟩
    · rw [hpos, htx, hc, u32_add_of_lt (by omega)]
      refine ⟨by omega, by omega, by omega, ?_⟩
      rw [hc] at h0
      by_cases hfit : W ≤ image.length - st0.position
      · have hmin : min st0.txSize (image.length - st0.position) = W := by omega
        rw [hmin]
        rcases hdvd with hd | he
        · exact Or.inl (Nat.dvd_add hd (dvd_refl W))
        · omega
      · exact Or.inr (by omega)
    · rw [hpos, htx, hc]
      exact ⟨hp, by omega, by omega, hdvd⟩

/-- The chunk length used by a pass is `min(write_size, L - position)`. -/
theorem loop_head_chunk {T : Transport σ} {image : List Nat} {W : Nat} {st : WriteState σ}
    (hL : image.length < 4294967296) (h : LoopHead T image W st) :
    clamped_txSize image st = min W (image.length - st.position) := by
  obtain ⟨hp, ht, hfull, _⟩ := loop_head_invariant hL h
  rw [clamped_txSize_eq hL hp]
  omega

/-- Every write call that a finished write loop has added to the trace was
issued by a pass that started in a loop-head state, with the address and the
buffer built from that state. -/
theorem write_loop_heads (T : Transport σ) (image : List Nat) (W : Nat) :
    ∀ (fuel : Nat) (st st1 : WriteState σ), write_loop T image W fuel st = some st1 →
      LoopHead T image W st →
      ∃ ext, st1.calls = st.calls ++ ext ∧
        ∀ w ∈ write_calls ext, ∃ st2, LoopHead T image W st2 ∧ clamped_txSize image st2 ≠ 0 ∧
          w = (u32_add 0x10010000 st2.position, W, tx_buffer image W st2) := by
  intro fuel
  induction fuel with
  | zero => intro st st1 h; simp [write_loop] at h
  | succ fuel ih =>
    intro st st1 h hhead
    unfold write_loop at h
    split at h
    · simp at h
    · rename_i st2 hit
      simp only [Option.some.injEq] at h
      subst h
      obtain ⟨_, rfl⟩ := write_iter_break hit
      exact ⟨[], by simp, by simp [write_calls]⟩
    · rename_i st2 hit
      obtain ⟨ext, hcalls, hall⟩ := ih st2 st1 h (LoopHead.pass hhead hit)
      obtain ⟨h0, _, _, _, _, ok, crc, _, hcase⟩ := write_iter_next hit
      have hkey : ∃ tail, st2.calls = st.calls ++
          (Call.write (u32_add 0x10010000 st.position) W (tx_buffer image W st) ok crc :: tail) ∧
          write_calls tail = [] := by
        rcases hcase with ⟨_, _, _, hc⟩ | ⟨_, _, n, hc⟩
        · exact ⟨[], hc, rfl⟩
        · exact ⟨_, hc, write_calls_syncs n⟩
      obtain ⟨tail, htail, hnow⟩ := hkey
      have hw : write_calls
          (Call.write (u32_add 0x10010000 st.position) W (tx_buffer image W st) ok crc :: tail ++ ext)
          = (u32_add 0x10010000 st.position, W, tx_buffer image W st) :: write_calls ext := by
        have : write_calls (tail ++ ext) = write_calls ext := by
          rw [write_calls_append, hnow, List.nil_append]
        simpa [write_calls, Call.write_args] using this
      refine ⟨Call.write (u32_add 0x10010000 st.position) W (tx_buffer image W st) ok crc ::
        tail ++ ext, ?_, ?_⟩
      · rw [hcalls, htail]; simp
      · intro w hwm
        rw [hw] at hwm
        rcases List.mem_cons.mp hwm with rfl | hwm
        · exact ⟨st, hhead, h0, rfl⟩
        · exact hall w hwm

theorem write_calls_restart (dev : σ) (calls : List Call) :
    write_calls (restart dev calls).calls = write_calls calls := by
  unfold restart
  simp only [write_calls_append]
  exact List.append_nil _

/-- A finished run either contains no write call or went through
`flash_image` after a prelude. -/
theorem app_main_update_flash {T : Transport σ} {image : List Nat} {fuel : Nat} {dev : σ}
    {run : Run σ} (h : app_main_update T image fuel dev = some run) :
    write_calls run.calls = [] ∨
      ∃ pre dev1, Prelude pre ∧ flash_image T image fuel dev1 pre = some run := by
  obtain ⟨pre0, hpre0, hshape⟩ := app_main_update_shape h
  unfold app_main_update at h
  simp only at h
  by_cases hv : (T.get_bootloader_version dev).1 = true
  · simp only [hv, Bool.not_true, Bool.false_eq_true, if_false] at h
    split at h
    · simp at h
    · rename_i run1 hw
      simp only [Option.some.injEq] at h
      subst h
      obtain ⟨ext, hall, hc, _⟩ := wait_bl_state_trace T _ _ _ _ hw
      left
      rw [hc]
      apply write_calls_of_cmd_ne
      intro c hcm
      simp only [List.mem_append, List.mem_singleton] at hcm
      rcases hcm with (rfl | h1) | rfl
      · simp [Call.cmd]
      · rw [hall c h1]; simp
      · simp [Call.cmd]
    · rename_i d calls hw
      obtain ⟨ext, hall, hc⟩ := wait_bl_state_trace T _ _ _ _ hw
      simp only at hc
      split at h
      · simp at h
      · rename_i d2 calls2 hs
        obtain ⟨n, hn⟩ := sync_until_ack_trace T _ _ _ _ _ hs
        right
        refine ⟨calls2, d2, ?_, h⟩
        intro c hcm
        rw [hn, hc] at hcm
        simp only [List.mem_append, List.mem_singleton] at hcm
        rcases hcm with (rfl | h1) | h1 | rfl
        · exact Or.inl rfl
        · exact Or.inr (Or.inl (hall c h1))
        · rw [List.eq_of_mem_replicate h1]; exact Or.inr (Or.inr rfl)
        · exact Or.inr (Or.inr rfl)
  · simp only [hv, Bool.not_false, if_true, Option.some.injEq] at h
    subst h
    left
    simp [restart, write_calls, Call.write_args]

/-- Every write call of a finished run was issued by a pass of the write loop
that started in a loop-head state for the `write_size` reported by get_info. -/
theorem run_writes_at_loop_heads {T : Transport σ} {image : List Nat} {fuel : Nat} {dev : σ}
    {run : Run σ} (h : app_main_update T image fuel dev = some run) :
    ∀ w ∈ write_calls run.calls, ∃ info st, Call.get_info true info ∈ run.calls ∧
      LoopHead T image info.write_size st ∧ clamped_txSize image st ≠ 0 ∧
      w = (u32_add 0x10010000 st.position, info.write_size, tx_buffer image info.write_size st) := by
  intro w hw
  rcases app_main_update_flash h with hnil | ⟨pre, dev1, hpre, hflash⟩
  · rw [hnil] at hw; simp at hw
  · have hprew : write_calls pre = [] :=
      write_calls_of_cmd_ne (fun c hc => (prelude_cmd hpre hc).2.2.1)
    have hgi : ∀ b i, write_calls [Call.get_info b i] = [] := fun _ _ => rfl
    have her : ∀ a l b, write_calls [Call.erase a l b] = [] := fun _ _ _ => rfl
    unfold flash_image at hflash
    simp only at hflash
    by_cases hok : (T.bl_get_info dev1).1.1 = true
    · simp only [hok, Bool.not_true, Bool.false_eq_true, if_false] at hflash
      split at hflash
      · simp only [Option.some.injEq] at hflash
        subst hflash
        have hnil : write_calls (pre ++ [Call.get_info true (T.bl_get_info dev1).1.2]) = [] := by
          simp only [write_calls_append, hprew, List.nil_append]
          rfl
        rw [hnil] at hw
        exact absurd hw (List.not_mem_nil _)
      · rename_i len hel
        by_cases he : (T.bl_erase (T.bl_get_info dev1).2 (T.bl_get_info dev1).1.2.flash_start
            len).1 = true
        · simp only [he, Bool.not_true, Bool.false_eq_true, if_false] at hflash
          split at hflash
          · simp at hflash
          · rename_i st hst
            simp only [Option.some.injEq] at hflash
            subst hflash
            obtain ⟨ext, hcalls, hall⟩ := write_loop_heads T image _ _ _ _ hst
              (LoopHead.entry _ _)
            simp only [write_init] at hcalls
            have hrun : ∃ tail, (seal_and_go T st).calls = st.calls ++ tail ∧
                write_calls tail = [] := by
              unfold seal_and_go
              simp only
              split_ifs
              · exact ⟨[Call.seal 0x10010000 0x10010000 st.totalLength st.totalCrc
                  (T.bl_seal st.dev 0x10010000 0x10010000 st.totalLength st.totalCrc).1,
                  Call.go 0x10010000], by simp, rfl⟩
              · exact ⟨[Call.seal 0x10010000 0x10010000 st.totalLength st.totalCrc
                  (T.bl_seal st.dev 0x10010000 0x10010000 st.totalLength st.totalCrc).1],
                  rfl, rfl⟩
            obtain ⟨tail, htail, htw⟩ := hrun
            have hwc : write_calls (seal_and_go T st).calls = write_calls ext := by
              rw [htail, hcalls]
              simp only [write_calls_append, hprew, htw, List.nil_append, List.append_nil]
              rfl
            rw [hwc] at hw
            obtain ⟨st2, hh, h0, hweq⟩ := hall w hw
            refine ⟨(T.bl_get_info dev1).1.2, st2, ?_, hh, h0, hweq⟩
            rw [htail, hcalls]
            simp
        · simp only [he, Bool.not_false, if_true, Option.some.injEq] at hflash
          subst hflash
          rw [write_calls_restart] at hw
          simp only [write_calls_append, hprew, hgi, her, List.append_nil] at hw
          exact absurd hw (List.not_mem_nil _)
    · simp only [hok, Bool.not_false, if_true, Option.some.injEq] at hflash
      subst hflash
      rw [write_calls_restart] at hw
      simp only [write_calls_append, hprew, hgi, List.append_nil] at hw
      exact absurd hw (List.not_mem_nil _)

theorem erase_length_le_clamp {L F E len : Nat} (h : erase_length L F E = some len) :
    0 < E ∧ len ≤ u32_sub F E := by
  unfold erase_length at h
  by_cases hE : E = 0
  · rw [if_pos hE] at h
    simp at h
  · rw [if_neg hE] at h
    simp only at h
    split_ifs at h with hc
    · simp only [Option.some.injEq] at h
      omega
    · simp only [Option.some.injEq] at h
      omega

/-- An erase call of a finished run starts at the `flash_start` reported by
get_info and has the length computed by `erase_length`. -/
theorem erase_call_shape {T : Transport σ} {image : List Nat} {fuel : Nat} {dev : σ}
    {run : Run σ} (h : app_main_update T image fuel dev = some run) {s len : Nat} {ok : Bool}
    (he : Call.erase s len ok ∈ run.calls) :
    ∃ info, Call.get_info true info ∈ run.calls ∧ s = info.flash_start ∧
      erase_length image.length info.flash_size info.erase_size = some len := by
  obtain ⟨pre, hpre, hshape⟩ := app_main_update_shape h
  have hnot : ∀ c ∈ pre, c.cmd ≠ Cmd.erase := fun c hc => (prelude_cmd hpre hc).2.2.2.2.2
  rcases hshape with ⟨hcalls, _⟩ | ⟨info, hcalls, _⟩ | ⟨info, _, hcalls, _⟩ |
    ⟨info, len0, hel, hcalls, _⟩ | ⟨info, len0, ext, tl, tc, ok0, hel, hcalls, _, hext, _⟩
  · rw [hcalls] at he
    simp only [List.mem_append, List.mem_singleton] at he
    rcases he with h1 | h1
    · exact absurd rfl (hnot _ h1)
    · simp at h1
  · rw [hcalls] at he
    simp only [List.mem_append, List.mem_cons, List.mem_singleton, List.not_mem_nil,
      or_false] at he
    rcases he with h1 | h1 | h1
    · exact absurd rfl (hnot _ h1)
    · simp at h1
    · simp at h1
  · rw [hcalls] at he
    simp only [List.mem_append, List.mem_singleton] at he
    rcases he with h1 | h1
    · exact absurd rfl (hnot _ h1)
    · simp at h1
  · have hmem := he
    rw [hcalls] at hmem
    simp only [List.mem_append, List.mem_cons, List.mem_singleton, List.not_mem_nil,
      or_false] at hmem
    rcases hmem with h1 | h1 | h1 | h1
    · exact absurd rfl (hnot _ h1)
    · simp at h1
    · simp only [Call.erase.injEq] at h1
      obtain ⟨rfl, rfl, _⟩ := h1
      exact ⟨info, by rw [hcalls]; simp, rfl, hel⟩
    · simp at h1
  · have hmem := he
    rw [hcalls] at hmem
    simp only [List.mem_append, List.mem_cons, List.mem_singleton, List.not_mem_nil,
      or_false] at hmem
    rcases hmem with ((h1 | h1 | h1) | h1) | h1 | h1
    · exact absurd rfl (hnot _ h1)
    · simp at h1
    · simp only [Call.erase.injEq] at h1
      obtain ⟨rfl, rfl, _⟩ := h1
      exact ⟨info, by rw [hcalls]; simp, rfl, hel⟩
    · rcases hext _ h1 with h2 | h2 <;> simp [Call.cmd] at h2
    · simp at h1
    · cases ok0 <;> simp at h1

theorem clamped_txSize_retry {image : List Nat} {st st1 : WriteState σ}
    (hp : st1.position = st.position) (ht : st1.txSize = clamped_txSize image st) :
    clamped_txSize image st1 = clamped_txSize image st := by
  unfold clamped_txSize at ht ⊢
  rw [hp, ht]
  split_ifs <;> omega


set_option maxRecDepth 100000 in
/-- Claim C11, counterexample: with a bootloader reporting
`flash_start = 0x10020000` the first write goes to `0x10010000`, below the
flash region; with a flash of 8 bytes a 10-byte image is written up to
`0x1001000C`, beyond `flash_start + flash_size = 0x10010008`; and with
`flash_size = 1000` below `erase_size = 4096` the erase length is 4096, beyond
the flash size. -/
theorem ranges_outside_flash :
    ((app_main_update (scripted high_flash_start) [1, 2, 3, 4, 5] 8 0).map
          (fun r => write_calls r.calls) =
        some [(0x10010000, 4, [1, 2, 3, 4]), (0x10010004, 4, [5, 0, 0, 0])] ∧
      ¬ high_flash_start.info.flash_start ≤ 0x10010000) ∧
    ((app_main_update (scripted tiny_flash) [1, 2, 3, 4, 5, 6, 7, 8, 9, 10] 8 0).map
          (fun r => write_calls r.calls) =
        some [(0x10010000, 4, [1, 2, 3, 4]), (0x10010004, 4, [5, 6, 7, 8]),
          (0x10010008, 4, [9, 10, 0, 0])] ∧
      ¬ 0x10010008 + 4 ≤ tiny_flash.info.flash_start + tiny_flash.info.flash_size) ∧
    (erase_length 2500 1000 4096 = some 4096 ∧ ¬ 4096 ≤ 1000) := by
  refine ⟨⟨?_, ?_⟩, ⟨?_, ?_⟩, ?_, ?_⟩
  · decide
  · decide
  · decide
  · decide
  · decide
  · decide

/-- Claim C11, amended: in every finished run, the erase call starts at the
`flash_start` reported by get_info and, when `erase_size ≤ flash_size` (32-bit
values), its range ends at or before `flash_start + flash_size`; every write
call has the address `(0x10010000 + position) mod 2^32` for a `position` below
`L` that is a multiple of `write_size`, the length argument `write_size` and a
buffer of `write_size` bytes; the range
`[0x10010000 + position, 0x10010000 + position + write_size)` lies within
`[flash_start, flash_start + flash_size)` whenever `flash_start ≤ 0x10010000`
and the image rounded up to whole write blocks ends inside the region; and
when moreover the region does not wrap the 32-bit address space
(`flash_start + flash_size ≤ 2^32`) the address passed is
`0x10010000 + position` itself, so the range of the call lies within the
region. -/
theorem erase_and_write_ranges (T : Transport σ) (image : List Nat) (fuel : Nat) (dev : σ)
    (run : Run σ) (hL : image.length < 4294967296)
    (h : app_main_update T image fuel dev = some run) :
    (∀ s len ok, Call.erase s len ok ∈ run.calls →
      ∃ info, Call.get_info true info ∈ run.calls ∧ s = info.flash_start ∧
        (info.erase_size ≤ info.flash_size → info.flash_size < 4294967296 →
          s + len ≤ info.flash_start + info.flash_size)) ∧
    (∀ w ∈ write_calls run.calls,
      ∃ info position, Call.get_info true info ∈ run.calls ∧
        position < image.length ∧ info.write_size ∣ position ∧
        w.1 = u32_add 0x10010000 position ∧ w.2.1 = info.write_size ∧
        w.2.2.length = info.write_size ∧
        (info.flash_start ≤ 0x10010000 →
          0x10010000 +
              info.write_size * ((image.length + info.write_size - 1) / info.write_size) ≤
            info.flash_start + info.flash_size →
          info.flash_start ≤ 0x10010000 + position ∧
          0x10010000 + position + w.2.1 ≤ info.flash_start + info.flash_size ∧
          (info.flash_start + info.flash_size ≤ 4294967296 →
            w.1 = 0x10010000 + position ∧
            info.flash_start ≤ w.1 ∧ w.1 + w.2.1 ≤ info.flash_start + info.flash_size))) := by
  constructor
  · intro s len ok he
    obtain ⟨info, hinfo, hs, hel⟩ := erase_call_shape h he
    refine ⟨info, hinfo, hs, ?_⟩
    intro h1 h2
    obtain ⟨_, hle⟩ := erase_length_le_clamp hel
    rw [u32_sub_of_le h1 h2] at hle
    omega
  · intro w hw
    obtain ⟨info, st, hinfo, hhead, h0, rfl⟩ := run_writes_at_loop_heads h w hw
    obtain ⟨hp, ht, _, hdvd⟩ := loop_head_invariant hL hhead
    have hc := loop_head_chunk hL hhead
    rw [hc] at h0
    have hlt : st.position < image.length := by omega
    have hW : 0 < info.write_size := by omega
    have hd : info.write_size ∣ st.position := by
      rcases hdvd with hd | he
      · exact hd
      · omega
    refine ⟨info, st.position, hinfo, hlt, hd, rfl, rfl, tx_buffer_length hL hp ht, ?_⟩
    intro hfs hfit
    obtain ⟨k, hk⟩ := hd
    obtain ⟨hq1, _⟩ := ceil_div_bounds image.length hW
    have hkq : k < (image.length + info.write_size - 1) / info.write_size := by
      have hmul : info.write_size * k <
          info.write_size * ((image.length + info.write_size - 1) / info.write_size) := by
        rw [← hk, Nat.mul_comm]
        omega
      exact Nat.lt_of_mul_lt_mul_left hmul
    have hnext : info.write_size * (k + 1) ≤
        info.write_size * ((image.length + info.write_size - 1) / info.write_size) :=
      Nat.mul_le_mul_left _ hkq
    rw [Nat.mul_succ, ← hk] at hnext
    show info.flash_start ≤ 0x10010000 + st.position ∧
      0x10010000 + st.position + info.write_size ≤ info.flash_start + info.flash_size ∧
      (info.flash_start + info.flash_size ≤ 4294967296 →
        u32_add 0x10010000 st.position = 0x10010000 + st.position ∧
        info.flash_start ≤ u32_add 0x10010000 st.position ∧
        u32_add 0x10010000 st.position + info.write_size ≤
          info.flash_start + info.flash_size)
    refine ⟨by omega, by omega, ?_⟩
    intro hend
    have hadd : u32_add 0x10010000 st.position = 0x10010000 + st.position :=
      u32_add_of_lt (by omega)
    rw [hadd]
    omega

set_option maxRecDepth 100000 in
/-- Witness for claim C11 (amended): the run of the image `[1, 2, 3, 4, 5]`
against the device that reports `flash_start = 0x10000000`, its erase call and
its second write call, which lies inside the region although the region does
not start at `0x10010000`. -/
theorem erase_and_write_ranges_witness :
    [1, 2, 3, 4, 5].length < 4294967296 ∧
    app_main_update (scripted low_flash_start) [1, 2, 3, 4, 5] 8 0 = some low_start_run ∧
    (Call.erase 0x10000000 4096 true ∈ low_start_run.calls ∧
      ∃ info, Call.get_info true info ∈ low_start_run.calls ∧ 0x10000000 = info.flash_start ∧
        (info.erase_size ≤ info.flash_size → info.flash_size < 4294967296 →
          0x10000000 + 4096 ≤ info.flash_start + info.flash_size)) ∧
    ((0x10010004, 4, [5, 0, 0, 0]) ∈ write_calls low_start_run.calls ∧
      ∃ info position, Call.get_info true info ∈ low_start_run.calls ∧
        position < [1, 2, 3, 4, 5].length ∧ info.write_size ∣ position ∧
        0x10010004 = u32_add 0x10010000 position ∧ 4 = info.write_size ∧
        [5, 0, 0, 0].length = info.write_size ∧
        (info.flash_start ≤ 0x10010000 →
          0x10010000 +
              info.write_size * (([1, 2, 3, 4, 5].length + info.write_size - 1) /
                info.write_size) ≤
            info.flash_start + info.flash_size →
          info.flash_start ≤ 0x10010000 + position ∧
          0x10010000 + position + 4 ≤ info.flash_start + info.flash_size ∧
          (info.flash_start + info.flash_size ≤ 4294967296 →
            0x10010004 = 0x10010000 + position ∧
            info.flash_start ≤ 0x10010004 ∧
            0x10010004 + 4 ≤ info.flash_start + info.flash_size))) ∧
    (low_flash_start.info.flash_start ≤ 0x10010000 ∧
      0x10010000 + low_flash_start.info.write_size *
          (([1, 2, 3, 4, 5].length + low_flash_start.info.write_size - 1) /
            low_flash_start.info.write_size) ≤
        low_flash_start.info.flash_start + low_flash_start.info.flash_size ∧
      low_flash_start.info.flash_start + low_flash_start.info.flash_size ≤ 4294967296) :=
  ⟨by decide, by decide,
    ⟨by decide,
      (erase_and_write_ranges (scripted low_flash_start) [1, 2, 3, 4, 5] 8 0 low_start_run
        (by decide) (by decide)).1 0x10000000 4096 true (by decide)⟩,
    ⟨by decide,
      (erase_and_write_ranges (scripted low_flash_start) [1, 2, 3, 4, 5] 8 0 low_start_run
        (by decide) (by decide)).2 (0x10010004, 4, [5, 0, 0, 0]) (by decide)⟩,
    by decide⟩

set_option maxRecDepth 100000 in
/-- Claim C12: a 5-byte image in 4-byte blocks, the first attempt of block 1
answered with a wrong CRC: the failed attempt is counted, seal receives a total
length of 12 where `W * ⌈L / W⌉` is 8, and the total CRC has block 1 folded in
twice. -/
theorem failed_attempt_counts_toward_total :
    (app_main_update (scripted (one_bad_write 1)) [1, 2, 3, 4, 5] 8 0).map (fun r => r.calls) =
      some (scripted_prelude ++
        [Call.get_info true small_info, Call.erase 0x10010000 4096 true,
          Call.write 0x10010000 4 [1, 2, 3, 4] true 3057449933,
          Call.write 0x10010004 4 [5, 0, 0, 0] true 379203375, Call.sync true,
          Call.write 0x10010004 4 [5, 0, 0, 0] true 379203374,
          Call.seal 0x10010000 0x10010000 12 1912154008 true, Call.go 0x10010000]) ∧
    4 * (([1, 2, 3, 4, 5].length + 4 - 1) / 4) = 8 ∧
    crc32_le 0 [5, 0, 0, 0] 4 = 379203374 ∧
    crc32_le (crc32_le (crc32_le 0 [1, 2, 3, 4] 4) [5, 0, 0, 0] 4) [5, 0, 0, 0] 4 = 1912154008 := by
  refine ⟨?_, ?_, ?_, ?_⟩
  · decide
  · decide
  · decide
  · decide


/-- Claim C13: for every pass of the write loop that returns: `position`
differs afterwards only if the pass reached the write call and the reply was
success with the CRC of the block, and then it has grown by the chunk length
(`min(write_size, L - position)` at every loop head); if the reply was a
failure or a wrong CRC, `position` is unchanged, the write call is followed by
sync calls up to the first acknowledged one, and the next pass issues a write
call with the same address, length argument and buffer. -/
theorem failed_write_is_retried (T : Transport σ) (image : List Nat) (W fuel : Nat)
    (st st1 : WriteState σ) (b : Bool) (h : write_iter T image W fuel st = some (b, st1)) :
    (st1.position ≠ st.position → b = false ∧ write_verified T image W st) ∧
    (b = false → write_verified T image W st →
      st1.position = u32_add st.position (clamped_txSize image st) ∧
      (image.length < 4294967296 → LoopHead T image W st →
        st1.position = st.position + chunk_length_spec W image.length st.position)) ∧
    (b = false → ¬ write_verified T image W st →
      st1.position = st.position ∧
      (∃ ok crc n, st1.calls = st.calls ++
        Call.write (u32_add 0x10010000 st.position) W (tx_buffer image W st) ok crc ::
          (List.replicate n (Call.sync false) ++ [Call.sync true])) ∧
      (∀ fuel2 b2 st2, write_iter T image W fuel2 st1 = some (b2, st2) →
        b2 = false ∧ ∃ ok2 crc2 tail, st2.calls = st1.calls ++
          Call.write (u32_add 0x10010000 st.position) W (tx_buffer image W st) ok2 crc2 ::
            tail)) := by
  cases b with
  | true =>
    obtain ⟨_, rfl⟩ := write_iter_break h
    exact ⟨fun hne => absurd rfl hne, fun hb => by simp at hb, fun hb => by simp at hb⟩
  | false =>
    obtain ⟨h0, htx, _, _, _, ok, crc, hrep, hcase⟩ := write_iter_next h
    have hver : write_verified T image W st ↔
        (ok = true ∧ crc = crc32_le 0 (tx_buffer image W st) W) := by
      unfold write_verified
      rw [hrep]
    rcases hcase with ⟨hok, hcrc, hpos, _⟩ | ⟨hbad, hpos, n, hcalls⟩
    · have hv : write_verified T image W st := hver.mpr ⟨hok, hcrc⟩
      refine ⟨fun _ => ⟨rfl, hv⟩, fun _ _ => ⟨hpos, ?_⟩, fun _ hnv => absurd hv hnv⟩
      intro hL hhead
      obtain ⟨hp, _, _, _⟩ := loop_head_invariant hL hhead
      have hc := loop_head_chunk hL hhead
      rw [hpos, hc, chunk_length_spec, u32_add_of_lt (by omega)]
    · have hnv : ¬ write_verified T image W st := fun hv => hbad (hver.mp hv)
      refine ⟨fun hne => absurd hpos hne, fun _ hv => absurd hv hnv,
        fun _ _ => ⟨hpos, ⟨ok, crc, n, hcalls⟩, ?_⟩⟩
      intro fuel2 b2 st2 h2
      have hcl : clamped_txSize image st1 = clamped_txSize image st :=
        clamped_txSize_retry hpos htx
      have hbuf : tx_buffer image W st1 = tx_buffer image W st := by
        unfold tx_buffer
        rw [hcl, hpos]
      cases b2 with
      | true =>
        obtain ⟨hz, _⟩ := write_iter_break h2
        rw [hcl] at hz
        exact absurd hz h0
      | false =>
        obtain ⟨_, _, _, _, _, ok2, crc2, _, hcase2⟩ := write_iter_next h2
        rw [hbuf, hpos] at hcase2
        refine ⟨rfl, ok2, crc2, ?_⟩
        rcases hcase2 with ⟨_, _, _, hc2⟩ | ⟨_, _, m, hc2⟩
        · exact ⟨[], hc2⟩
        · exact ⟨_, hc2⟩

set_option maxRecDepth 100000 in
/-- Witness for claim C13: the first pass for the image `[1, 2, 3, 4, 5]`
against `scripted (one_bad_write 0)`, whose write is answered with a wrong
CRC. -/
theorem failed_write_is_retried_witness :
    write_iter (scripted (one_bad_write 0)) [1, 2, 3, 4, 5] 4 1 (write_init 4 0 []) =
      some (false, failed_pass_state) ∧
    ¬ write_verified (scripted (one_bad_write 0)) [1, 2, 3, 4, 5] 4 (write_init 4 0 []) ∧
    failed_pass_state.position = (write_init 4 (0 : Nat) []).position ∧
    (∃ ok crc n, failed_pass_state.calls = (write_init 4 (0 : Nat) []).calls ++
      Call.write (u32_add 0x10010000 (write_init 4 (0 : Nat) []).position) 4
        (tx_buffer [1, 2, 3, 4, 5] 4 (write_init 4 (0 : Nat) [])) ok crc ::
        (List.replicate n (Call.sync false) ++ [Call.sync true])) ∧
    (∀ fuel2 b2 st2,
      write_iter (scripted (one_bad_write 0)) [1, 2, 3, 4, 5] 4 fuel2 failed_pass_state =
        some (b2, st2) →
      b2 = false ∧ ∃ ok2 crc2 tail, st2.calls = failed_pass_state.calls ++
        Call.write (u32_add 0x10010000 (write_init 4 (0 : Nat) []).position) 4
          (tx_buffer [1, 2, 3, 4, 5] 4 (write_init 4 (0 : Nat) [])) ok2 crc2 :: tail) :=
  ⟨by decide, by unfold write_verified; decide,
    (failed_write_is_retried (scripted (one_bad_write 0)) [1, 2, 3, 4, 5] 4 1 (write_init 4 0 [])
      failed_pass_state false (by decide)).2.2 rfl (by unfold write_verified; decide)⟩

/-- Claim C14: at every loop head of the write loop, whatever the device
answered before, the chunk length used by the pass equals
`min(write_size, L - position)`; `txSize` is never above `write_size` and is
only lowered; the pass leaves the loop when that value is 0, and when it is
not 0 a pass that returns has not left the loop. -/
theorem chunk_length_refines (T : Transport σ) (image : List Nat) (W : Nat) (st : WriteState σ)
    (hL : image.length < 4294967296) (hhead : LoopHead T image W st) :
    clamped_txSize image st = chunk_length_spec W image.length st.position ∧
    clamped_txSize image st ≤ st.txSize ∧ st.txSize ≤ W ∧
    (chunk_length_spec W image.length st.position = 0 →
      ∀ fuel, write_iter T image W fuel st = some (true, { st with txSize := 0 })) ∧
    (chunk_length_spec W image.length st.position ≠ 0 →
      ∀ fuel b st1, write_iter T image W fuel st = some (b, st1) →
        b = false ∧ st1.txSize = chunk_length_spec W image.length st.position) := by
  obtain ⟨hp, ht, _, _⟩ := loop_head_invariant hL hhead
  have hc : clamped_txSize image st = chunk_length_spec W image.length st.position :=
    loop_head_chunk hL hhead
  refine ⟨hc, ?_, ht, ?_, ?_⟩
  · rw [clamped_txSize_eq hL hp]
    omega
  · intro hz fuel
    rw [← hc] at hz
    rw [write_iter_eq, if_pos hz, hz]
  · intro hnz fuel b st1 h
    rw [← hc] at hnz
    cases b with
    | true =>
      obtain ⟨hz, _⟩ := write_iter_break h
      exact absurd hz hnz
    | false =>
      obtain ⟨_, htx, _⟩ := write_iter_next h
      exact ⟨rfl, by rw [htx, hc]⟩

set_option maxRecDepth 100000 in
/-- Witness for claim C14: the loop head reached after the first pass for the
image `[1, 2, 3, 4, 5]` against `scripted all_ok`, where one byte is left. -/
theorem chunk_length_refines_witness :
    [1, 2, 3, 4, 5].length < 4294967296 ∧
    LoopHead (scripted all_ok) [1, 2, 3, 4, 5] 4 first_pass_state ∧
    clamped_txSize [1, 2, 3, 4, 5] first_pass_state =
      chunk_length_spec 4 [1, 2, 3, 4, 5].length first_pass_state.position ∧
    clamped_txSize [1, 2, 3, 4, 5] first_pass_state ≤ first_pass_state.txSize ∧
    first_pass_state.txSize ≤ 4 ∧
    (chunk_length_spec 4 [1, 2, 3, 4, 5].length first_pass_state.position = 0 →
      ∀ fuel, write_iter (scripted all_ok) [1, 2, 3, 4, 5] 4 fuel first_pass_state =
        some (true, { first_pass_state with txSize := 0 })) ∧
    (chunk_length_spec 4 [1, 2, 3, 4, 5].length first_pass_state.position ≠ 0 →
      ∀ fuel b st1,
        write_iter (scripted all_ok) [1, 2, 3, 4, 5] 4 fuel first_pass_state = some (b, st1) →
        b = false ∧
          st1.txSize = chunk_length_spec 4 [1, 2, 3, 4, 5].length first_pass_state.position) :=
  ⟨by decide,
    LoopHead.pass (LoopHead.entry 0 [])
      (show write_iter (scripted all_ok) [1, 2, 3, 4, 5] 4 0 (write_init 4 0 []) =
        some (false, first_pass_state) by decide),
    chunk_length_refines (scripted all_ok) [1, 2, 3, 4, 5] 4 first_pass_state (by decide)
      (LoopHead.pass (LoopHead.entry 0 [])
        (show write_iter (scripted all_ok) [1, 2, 3, 4, 5] 4 0 (write_init 4 0 []) =
          some (false, first_pass_state) by decide))⟩

/-- Claim C15: at every loop head of the write loop, whatever the device
answered before, `position ≤ L`, `txSize ≤ write_size` before and after the
clamp, and `position + txSize ≤ L` for the clamped `txSize` used by the copy;
so `L - position` does not wrap, the transmit buffer after the copy still has
exactly `write_size` bytes, and the `txSize` bytes read at `position` are all
inside the image. -/
theorem copy_stays_in_bounds (T : Transport σ) (image : List Nat) (W : Nat) (st : WriteState σ)
    (hL : image.length < 4294967296) (hhead : LoopHead T image W st) :
    st.position ≤ image.length ∧ st.txSize ≤ W ∧ clamped_txSize image st ≤ W ∧
    st.position + clamped_txSize image st ≤ image.length ∧
    u32_sub image.length st.position = image.length - st.position ∧
    (tx_buffer image W st).length = W ∧
    ((image.drop st.position).take (clamped_txSize image st)).length =
      clamped_txSize image st := by
  obtain ⟨hp, ht, _, _⟩ := loop_head_invariant hL hhead
  have hc := @clamped_txSize_eq _ image st hL hp
  refine ⟨hp, ht, by omega, by omega, u32_sub_of_le hp hL, tx_buffer_length hL hp ht, ?_⟩
  rw [List.length_take, List.length_drop]
  omega

set_option maxRecDepth 100000 in
/-- Witness for claim C15: the loop head reached after the failed first pass
for the image `[1, 2, 3, 4, 5]` against `scripted (one_bad_write 0)`. -/
theorem copy_stays_in_bounds_witness :
    [1, 2, 3, 4, 5].length < 4294967296 ∧
    LoopHead (scripted (one_bad_write 0)) [1, 2, 3, 4, 5] 4 failed_pass_state ∧
    failed_pass_state.position ≤ [1, 2, 3, 4, 5].length ∧ failed_pass_state.txSize ≤ 4 ∧
    clamped_txSize [1, 2, 3, 4, 5] failed_pass_state ≤ 4 ∧
    failed_pass_state.position + clamped_txSize [1, 2, 3, 4, 5] failed_pass_state ≤
      [1, 2, 3, 4, 5].length ∧
    u32_sub [1, 2, 3, 4, 5].length failed_pass_state.position =
      [1, 2, 3, 4, 5].length - failed_pass_state.position ∧
    (tx_buffer [1, 2, 3, 4, 5] 4 failed_pass_state).length = 4 ∧
    (([1, 2, 3, 4, 5].drop failed_pass_state.position).take
        (clamped_txSize [1, 2, 3, 4, 5] failed_pass_state)).length =
      clamped_txSize [1, 2, 3, 4, 5] failed_pass_state :=
  ⟨by decide,
    LoopHead.pass (LoopHead.entry 0 [])
      (show write_iter (scripted (one_bad_write 0)) [1, 2, 3, 4, 5] 4 1 (write_init 4 0 []) =
        some (false, failed_pass_state) by decide),
    copy_stays_in_bounds (scripted (one_bad_write 0)) [1, 2, 3, 4, 5] 4 failed_pass_state
      (by decide)
      (LoopHead.pass (LoopHead.entry 0 [])
        (show write_iter (scripted (one_bad_write 0)) [1, 2, 3, 4, 5] 4 1 (write_init 4 0 []) =
          some (false, failed_pass_state) by decide))⟩


/-! ## Failure of get_info and of erase -/

/-- Once the prelude (version read, state poll loop, first sync loop) has
finished, `app_main_update` continues as `flash_image`. -/
theorem app_main_update_after_prelude {T : Transport σ} {image : List Nat} {fuel : Nat} {dev : σ}
    {d1 d2 : σ} {c1 c2 : List Call}
    (hv : (T.get_bootloader_version dev).1 = true)
    (hw : wait_bl_state T fuel (T.get_bootloader_version dev).2
      [Call.get_bootloader_version true] = some (Sum.inr (d1, c1)))
    (hs : sync_until_ack T fuel d1 c1 = some (d2, c2)) :
    app_main_update T image fuel dev = flash_image T image fuel d2 c2 := by
  unfold app_main_update
  simp only [hv, Bool.not_true, Bool.false_eq_true, if_false, hw, hs]

/-- A get_info call that fails makes `flash_image` call `restart()` at once,
whatever the fuel. -/
theorem flash_image_info_failed {T : Transport σ} {image : List Nat} {fuel : Nat} {dev : σ}
    {pre : List Call} (hi : (T.bl_get_info dev).1.1 = false) :
    flash_image T image fuel dev pre =
      some (restart (T.bl_get_info dev).2
        (pre ++ [Call.get_info false (T.bl_get_info dev).1.2])) := by
  unfold flash_image
  simp only [hi, Bool.not_false, if_true]

/-- An erase call that fails makes `flash_image` call `restart()` at once,
whatever the fuel. -/
theorem flash_image_erase_failed {T : Transport σ} {image : List Nat} {fuel : Nat} {dev : σ}
    {pre : List Call} {len : Nat} (hi : (T.bl_get_info dev).1.1 = true)
    (hel : erase_length image.length (T.bl_get_info dev).1.2.flash_size
      (T.bl_get_info dev).1.2.erase_size = some len)
    (he : (T.bl_erase (T.bl_get_info dev).2 (T.bl_get_info dev).1.2.flash_start len).1 = false) :
    flash_image T image fuel dev pre =
      some (restart (T.bl_erase (T.bl_get_info dev).2 (T.bl_get_info dev).1.2.flash_start len).2
        (pre ++ [Call.get_info true (T.bl_get_info dev).1.2] ++
          [Call.erase (T.bl_get_info dev).1.2.flash_start len false])) := by
  unfold flash_image
  simp only [hi, Bool.not_true, Bool.false_eq_true, if_false, hel, he, Bool.not_false, if_true]

/-- Claim C10: whenever the prelude of the update branch has finished (with
the calls `c2`), a get_info call that fails produces, with no further fuel, the
run `c2, get_info (failed), restart`, and an erase call that fails (after a
successful get_info and a defined erase length) produces the run
`c2, get_info, erase (failed), restart`, both ending in `restart()`; and in
every finished run a failed get_info or erase call is followed by `restart()`
and nothing else and preceded only by prelude calls (and the one successful
get_info).  So each of the two is attempted once, `restart()` is invoked, and
no erase (after a failed get_info), write, seal or go is issued. -/
theorem info_or_erase_failure_is_terminal (T : Transport σ) (image : List Nat) (fuel : Nat)
    (dev : σ) :
    (∀ d1 c1 d2 c2, (T.get_bootloader_version dev).1 = true →
      wait_bl_state T fuel (T.get_bootloader_version dev).2
        [Call.get_bootloader_version true] = some (Sum.inr (d1, c1)) →
      sync_until_ack T fuel d1 c1 = some (d2, c2) →
      ((T.bl_get_info d2).1.1 = false →
        ∃ run, app_main_update T image fuel dev = some run ∧
          run.calls = c2 ++ [Call.get_info false (T.bl_get_info d2).1.2, Call.restart] ∧
          run.outcome = Outcome.restarted) ∧
      (∀ len, (T.bl_get_info d2).1.1 = true →
        erase_length image.length (T.bl_get_info d2).1.2.flash_size
          (T.bl_get_info d2).1.2.erase_size = some len →
        (T.bl_erase (T.bl_get_info d2).2 (T.bl_get_info d2).1.2.flash_start len).1 = false →
        ∃ run, app_main_update T image fuel dev = some run ∧
          run.calls = c2 ++ [Call.get_info true (T.bl_get_info d2).1.2,
            Call.erase (T.bl_get_info d2).1.2.flash_start len false, Call.restart] ∧
          run.outcome = Outcome.restarted)) ∧
    (∀ run, app_main_update T image fuel dev = some run →
      (∀ info, Call.get_info false info ∈ run.calls →
        ∃ pre, Prelude pre ∧ run.calls = pre ++ [Call.get_info false info, Call.restart] ∧
          run.outcome = Outcome.restarted) ∧
      (∀ s l, Call.erase s l false ∈ run.calls →
        ∃ pre info, Prelude pre ∧
          run.calls = pre ++ [Call.get_info true info, Call.erase s l false, Call.restart] ∧
          run.outcome = Outcome.restarted)) := by
  constructor
  · intro d1 c1 d2 c2 hv hw hs
    have hflash := @app_main_update_after_prelude _ T image fuel dev d1 d2 c1 c2 hv hw hs
    constructor
    · intro hi
      refine ⟨_, by rw [hflash]; exact flash_image_info_failed hi, ?_, rfl⟩
      simp [restart]
    · intro len hi hel he
      refine ⟨_, by rw [hflash]; exact flash_image_erase_failed hi hel he, ?_, rfl⟩
      simp [restart]
  · intro run h
    exact failed_call_trace h

set_option maxRecDepth 100000 in
/-- Witness for claim C10: the device whose get_info fails and the device
whose erase fails, for the image `[1, 2, 3, 4, 5]`; in both the prelude is one
version read, one state poll and one sync. -/
theorem info_or_erase_failure_is_terminal_witness :
    ((scripted info_fails).get_bootloader_version 0).1 = true ∧
    wait_bl_state (scripted info_fails) 8 ((scripted info_fails).get_bootloader_version 0).2
      [Call.get_bootloader_version true] =
      some (Sum.inr (0, [Call.get_bootloader_version true,
        Call.get_bootloader_state true 0xB0])) ∧
    sync_until_ack (scripted info_fails) 8 0
      [Call.get_bootloader_version true, Call.get_bootloader_state true 0xB0] =
      some (0, scripted_prelude) ∧
    ((scripted info_fails).bl_get_info 0).1.1 = false ∧
    (∃ run, app_main_update (scripted info_fails) [1, 2, 3, 4, 5] 8 0 = some run ∧
      run.calls = scripted_prelude ++
        [Call.get_info false ((scripted info_fails).bl_get_info 0).1.2, Call.restart] ∧
      run.outcome = Outcome.restarted) ∧
    ((scripted erase_fails).bl_get_info 0).1.1 = true ∧
    erase_length [1, 2, 3, 4, 5].length ((scripted erase_fails).bl_get_info 0).1.2.flash_size
      ((scripted erase_fails).bl_get_info 0).1.2.erase_size = some 4096 ∧
    ((scripted erase_fails).bl_erase ((scripted erase_fails).bl_get_info 0).2
      ((scripted erase_fails).bl_get_info 0).1.2.flash_start 4096).1 = false ∧
    (∃ run, app_main_update (scripted erase_fails) [1, 2, 3, 4, 5] 8 0 = some run ∧
      run.calls = scripted_prelude ++
        [Call.get_info true ((scripted erase_fails).bl_get_info 0).1.2,
          Call.erase ((scripted erase_fails).bl_get_info 0).1.2.flash_start 4096 false,
          Call.restart] ∧
      run.outcome = Outcome.restarted) ∧
    (app_main_update (scripted info_fails) [1, 2, 3, 4, 5] 8 0 = some info_failed_run ∧
      Call.get_info false small_info ∈ info_failed_run.calls ∧
      ∃ pre, Prelude pre ∧
        info_failed_run.calls = pre ++ [Call.get_info false small_info, Call.restart] ∧
        info_failed_run.outcome = Outcome.restarted) ∧
    (app_main_update (scripted erase_fails) [1, 2, 3, 4, 5] 8 0 = some erase_failed_run ∧
      Call.erase 0x10010000 4096 false ∈ erase_failed_run.calls ∧
      ∃ pre info, Prelude pre ∧
        erase_failed_run.calls =
          pre ++ [Call.get_info true info, Call.erase 0x10010000 4096 false, Call.restart] ∧
        erase_failed_run.outcome = Outcome.restarted) :=
  ⟨by decide, by decide, by decide, by decide,
    ((info_or_erase_failure_is_terminal (scripted info_fails) [1, 2, 3, 4, 5] 8 0).1 0
      [Call.get_bootloader_version true, Call.get_bootloader_state true 0xB0] 0 scripted_prelude
      (by decide) (by decide) (by decide)).1 (by decide),
    by decide, by decide, by decide,
    ((info_or_erase_failure_is_terminal (scripted erase_fails) [1, 2, 3, 4, 5] 8 0).1 0
      [Call.get_bootloader_version true, Call.get_bootloader_state true 0xB0] 0 scripted_prelude
      (by decide) (by decide) (by decide)).2 4096 (by decide) (by decide) (by decide),
    ⟨by decide, by decide,
      (((info_or_erase_failure_is_terminal (scripted info_fails) [1, 2, 3, 4, 5] 8 0).2
        info_failed_run (by decide)).1 small_info (by decide))⟩,
    ⟨by decide, by decide,
      (((info_or_erase_failure_is_terminal (scripted erase_fails) [1, 2, 3, 4, 5] 8 0).2
        erase_failed_run (by decide)).2 0x10010000 4096 (by decide))⟩⟩

end Mch2022
